import Mathlib

/-!
Verification of the ISS tracker core (iss_tracker.py) via a shallow embedding.

Conventions of the embedding:
* Python strings are Lean `String`s; comparisons are by Unicode code point,
  exactly as CPython compares `str` values.
* The Redis store (`decode_responses=True`) is an association list from key
  strings to stored hashes.  The source stores the six numeric components as
  `str(float)` and re-parses them with `float(...)`; the embedding identifies
  that round trip and stores the rational values directly.
* Machine floats are modelled as exact decimal literals
  (mantissa/fraction-length pairs, `PyFloat`) where only parsing and
  storage of decimal texts occurs, and as `ℝ` in the trigonometric
  coordinate transform.
* Fallible Python code (raised exceptions) is modelled with `Option`/`Except`.
-/

namespace ISS

instance {ε α : Type} [DecidableEq ε] [DecidableEq α] : DecidableEq (Except ε α) := fun a b =>
  match a, b with
  | .error e, .error e' =>
    if h : e = e' then .isTrue (h ▸ rfl) else .isFalse (fun hc => h (Except.error.inj hc))
  | .error _, .ok _ => .isFalse (fun hc => Except.noConfusion hc)
  | .ok _, .error _ => .isFalse (fun hc => Except.noConfusion hc)
  | .ok v, .ok v' =>
    if h : v = v' then .isTrue (h ▸ rfl) else .isFalse (fun hc => h (Except.ok.inj hc))

/-! ### Python string comparison (code-point lexicographic) -/

/-- Python `<` on strings: lexicographic comparison by code point. -/
def pyLt : List Char → List Char → Bool
  | [], [] => false
  | [], _ :: _ => true
  | _ :: _, [] => false
  | a :: as, b :: bs =>
    if a.toNat < b.toNat then true
    else if b.toNat < a.toNat then false
    else pyLt as bs

/-- Python `<=` on strings (total order: `a <= b` iff `not (b < a)`). -/
def pyLe (a b : List Char) : Bool := !(pyLt b a)

theorem pyLt_cons (a b : Char) (as bs : List Char) :
    pyLt (a :: as) (b :: bs)
      = if a.toNat < b.toNat then true
        else if b.toNat < a.toNat then false else pyLt as bs := rfl

theorem pyLt_nil_right : ∀ a, pyLt a [] = false
  | [] => rfl
  | _ :: _ => rfl

theorem pyLt_asymm : ∀ a b, pyLt a b = true → pyLt b a = false
  | [], [], h => by simp [pyLt] at h
  | [], _ :: _, _ => by simp [pyLt]
  | _ :: _, [], h => by simp [pyLt] at h
  | a :: as, b :: bs, h => by
    rw [pyLt_cons] at h
    rw [pyLt_cons]
    rcases Nat.lt_trichotomy a.toNat b.toNat with hlt | heq | hgt
    · rw [if_neg (by omega), if_pos hlt]
    · rw [if_neg (by omega), if_neg (by omega)] at h
      rw [if_neg (by omega), if_neg (by omega)]
      exact pyLt_asymm as bs h
    · rw [if_pos hgt]
      rw [if_neg (by omega), if_pos hgt] at h
      exact absurd h (by simp)

theorem pyLt_false_trans : ∀ a b c, pyLt a b = false → pyLt b c = false → pyLt a c = false
  | _, _, [], _, _ => pyLt_nil_right _
  | [], [], _ :: _, _, h' => h'
  | [], _ :: _, _ :: _, h, _ => by simp [pyLt] at h
  | _ :: _, [], _ :: _, _, h' => by simp [pyLt] at h'
  | a :: as, b :: bs, c :: cs, h, h' => by
    rw [pyLt_cons] at h h'
    rw [pyLt_cons]
    rcases Nat.lt_trichotomy a.toNat b.toNat with hab | hab | hab
    · rw [if_pos hab] at h; exact absurd h (by simp)
    · rcases Nat.lt_trichotomy b.toNat c.toNat with hbc | hbc | hbc
      · rw [if_pos hbc] at h'; exact absurd h' (by simp)
      · rw [if_neg (by omega), if_neg (by omega)] at h
        rw [if_neg (by omega), if_neg (by omega)] at h'
        rw [if_neg (by omega), if_neg (by omega)]
        exact pyLt_false_trans as bs cs h h'
      · rw [if_neg (by omega), if_pos (by omega)]
    · rcases Nat.lt_trichotomy b.toNat c.toNat with hbc | hbc | hbc
      · rw [if_pos hbc] at h'; exact absurd h' (by simp)
      · rw [if_neg (by omega), if_pos (by omega)]
      · rw [if_neg (by omega), if_pos (by omega)]

theorem pyLe_trans (a b c : List Char) (h : pyLe a b = true) (h' : pyLe b c = true) :
    pyLe a c = true := by
  unfold pyLe at *
  rcases hca : pyLt c a with _ | _
  · simp
  · exfalso
    have hba : pyLt b a = false := by
      rcases hh : pyLt b a with _ | _
      · rfl
      · simp [hh] at h
    have hcb : pyLt c b = false := by
      rcases hh : pyLt c b with _ | _
      · rfl
      · simp [hh] at h'
    have := pyLt_false_trans c b a hcb hba
    rw [this] at hca
    exact absurd hca (by simp)

theorem pyLe_total (a b : List Char) : pyLe a b = true ∨ pyLe b a = true := by
  unfold pyLe
  rcases h : pyLt b a with _ | _
  · left; simp
  · right; simp [pyLt_asymm b a h]

/-- String comparison wrappers. -/
def strLt (a b : String) : Bool := pyLt a.data b.data
def strLe (a b : String) : Bool := pyLe a.data b.data

/-! ### Python `list.sort()` (ascending, modelled as insertion sort) -/

def insertLe (x : String) : List String → List String
  | [] => [x]
  | y :: ys => if strLe x y then x :: y :: ys else y :: insertLe x ys

/-- Python's `list.sort()` for strings: ascending code-point order. -/
def pySort : List String → List String
  | [] => []
  | x :: xs => insertLe x (pySort xs)

theorem insertLe_perm (x : String) (l : List String) : (insertLe x l).Perm (x :: l) := by
  induction l with
  | nil => simp [insertLe]
  | cons y ys ih =>
    unfold insertLe
    split
    · exact List.Perm.refl _
    · exact ((ih.cons y).trans (List.Perm.swap x y ys))

theorem pySort_perm (l : List String) : (pySort l).Perm l := by
  induction l with
  | nil => simp [pySort]
  | cons x xs ih => exact (insertLe_perm x (pySort xs)).trans (ih.cons x)

theorem insertLe_sorted (x : String) (l : List String)
    (h : l.Pairwise (fun a b => strLe a b = true)) :
    (insertLe x l).Pairwise (fun a b => strLe a b = true) := by
  induction l with
  | nil => simp [insertLe]
  | cons y ys ih =>
    rcases List.pairwise_cons.mp h with ⟨hy, hys⟩
    unfold insertLe
    split
    · next hxy =>
      refine List.pairwise_cons.mpr ⟨?_, h⟩
      intro b hb
      rcases List.mem_cons.mp hb with rfl | hb
      · exact hxy
      · exact pyLe_trans _ _ _ hxy (hy _ hb)
    · next hxy =>
      have hyx : strLe y x = true := by
        rcases pyLe_total x.data y.data with h' | h'
        · exact absurd h' (by simpa [strLe] using hxy)
        · exact h'
      refine List.pairwise_cons.mpr ⟨?_, ih hys⟩
      intro b hb
      have hmem : b ∈ x :: ys := (insertLe_perm x ys).mem_iff.mp hb
      rcases List.mem_cons.mp hmem with rfl | hm
      · exact hyx
      · exact hy _ hm

theorem pySort_sorted (l : List String) :
    (pySort l).Pairwise (fun a b => strLe a b = true) := by
  induction l with
  | nil => simp [pySort]
  | cons x xs ih => exact insertLe_sorted x (pySort xs) ih

/-! ### Python `str.replace`, prefix test, list slicing -/

/-- One scanning pass of Python `str.replace` for a non-empty pattern
`p0 :: ps`: replaces every non-overlapping occurrence, left to right.  The
`fuel` argument (structural recursion; any value at least the list length
behaves identically, see `replCharsAux_fuel`) only makes the recursion
structural — each step consumes at least one character. -/
def replCharsAux (p0 : Char) (ps rep : List Char) : Nat → List Char → List Char
  | 0, l => l
  | _ + 1, [] => []
  | fuel + 1, c :: rest =>
    if c = p0 && ps.isPrefixOf rest then
      rep ++ replCharsAux p0 ps rep fuel (rest.drop ps.length)
    else
      c :: replCharsAux p0 ps rep fuel rest

/-- Python `str.replace(pat, rep)` on character lists.  The empty-pattern
case (in which CPython inserts `rep` between all characters) never arises in
this development; every pattern used by the source is non-empty. -/
def replChars (p rep l : List Char) : List Char :=
  match p with
  | [] => l
  | p0 :: ps => replCharsAux p0 ps rep l.length l

/-- Python `str.replace` on strings. -/
def pyReplace (s pat rep : String) : String := ⟨replChars pat.data rep.data s.data⟩

/-- Boolean string-prefix test (used to model the Redis glob `epoch:*`). -/
def strHasPfx (p s : String) : Bool := p.data.isPrefixOf s.data

theorem isPrefixOf_append (p rest : List Char) : p.isPrefixOf (p ++ rest) = true := by
  induction p with
  | nil => simp [List.isPrefixOf]
  | cons c cs ih => simp [List.isPrefixOf, ih]

/-- If the pattern's first character never occurs in the scanned list, the
replacement leaves the list unchanged (given enough fuel). -/
theorem replCharsAux_eq_self (p0 : Char) (ps rep : List Char) :
    ∀ (fuel : Nat) (l : List Char), l.length ≤ fuel → (∀ c ∈ l, c ≠ p0) →
      replCharsAux p0 ps rep fuel l = l := by
  intro fuel
  induction fuel with
  | zero => intro l _ _; rfl
  | succ fuel ih =>
    intro l hlen h
    rcases l with _ | ⟨c, rest⟩
    · rfl
    · have hc : c ≠ p0 := h c (List.mem_cons_self _ _)
      rw [replCharsAux]
      rw [if_neg (by simp [hc])]
      rw [ih rest (by simp only [List.length_cons] at hlen; omega)
        (fun d hd => h d (List.mem_cons_of_mem _ hd))]

/-- Replacing a single leading occurrence of the pattern, when the first
pattern character does not occur later. -/
theorem replChars_strip (p0 : Char) (ps rep rest : List Char)
    (h : ∀ c ∈ rest, c ≠ p0) :
    replChars (p0 :: ps) rep ((p0 :: ps) ++ rest) = rep ++ rest := by
  show replCharsAux p0 ps rep (p0 :: (ps ++ rest)).length (p0 :: (ps ++ rest)) = rep ++ rest
  rw [show (p0 :: (ps ++ rest)).length = (ps ++ rest).length + 1 from rfl]
  rw [replCharsAux]
  rw [if_pos (by simp [isPrefixOf_append])]
  rw [List.drop_left]
  rw [replCharsAux_eq_self p0 ps rep (ps ++ rest).length rest
    (by simp) h]

/-- Clamp a Python slice index to `0..n` (negative indices count from the
end, as in CPython's slice semantics with step 1). -/
def pyIdx (n : Nat) (i : Int) : Nat :=
  if i < 0 then ((n : Int) + i).toNat else min i.toNat n

/-- Python list slicing `xs[start:]` (step 1). -/
def pySliceFrom (xs : List α) (start : Int) : List α :=
  xs.drop (pyIdx xs.length start)

/-- Python list slicing `xs[start:stop]` (step 1). -/
def pySliceTake (xs : List α) (start stop : Int) : List α :=
  (xs.take (pyIdx xs.length stop)).drop (pyIdx xs.length start)

theorem pySliceFrom_zero (xs : List α) : pySliceFrom xs 0 = xs := by
  simp [pySliceFrom, pyIdx]

theorem pySliceFrom_past_end (xs : List α) (start : Int)
    (h : (xs.length : Int) ≤ start) : pySliceFrom xs start = [] := by
  unfold pySliceFrom pyIdx
  rw [if_neg (by omega)]
  have : min start.toNat xs.length = xs.length := by omega
  rw [this, List.drop_length]

theorem pySliceTake_past_end (xs : List α) (start stop : Int)
    (h : (xs.length : Int) ≤ start) : pySliceTake xs start stop = [] := by
  unfold pySliceTake pyIdx
  rw [if_neg (by omega)]
  have hs : min start.toNat xs.length = xs.length := by omega
  rw [hs]
  apply List.drop_eq_nil_of_le
  rw [List.length_take]
  omega

/-! ### Python numeric parsing: digits, `float()` -/

def isDigitCh (c : Char) : Bool := 48 ≤ c.toNat && c.toNat ≤ 57

def digitVal (c : Char) : Nat := c.toNat - 48

/-- Maximal leading digit run of a character list, and the remainder. -/
def takeDigits (l : List Char) : List Char × List Char :=
  (l.takeWhile isDigitCh, l.dropWhile isDigitCh)

def natOfDigits (ds : List Char) : Nat := ds.foldl (fun a c => a * 10 + digitVal c) 0

/-- The exact value of a parsed decimal float literal, as the signed digit
string (integer and fraction digits concatenated) together with the number
of fraction digits: the denoted number is `mant / 10 ^ fracLen`.  Distinct
spellings of the same number (`"1.0"` vs `"1.00"`) get distinct
representatives; the modelled code paths only parse, store and re-emit
these values — no arithmetic or cross-spelling comparison occurs — so
representation equality is adequate. -/
structure PyFloat where
  mant : Int
  fracLen : Nat
deriving DecidableEq, Repr

/-- The real number a parsed float denotes. -/
noncomputable def PyFloat.toReal (v : PyFloat) : ℝ := (v.mant : ℝ) / 10 ^ v.fracLen

/-- CPython `float()` restricted to plain decimal literals: optional
whitespace, optional sign, digits with an optional fractional part.  The
exponent/`inf`/`nan` forms the full builtin also accepts do not occur in
this development's inputs. -/
def pythonFloat (s : String) : Option PyFloat :=
  let t := ((s.data.dropWhile Char.isWhitespace).reverse.dropWhile Char.isWhitespace).reverse
  let sgn : Bool × List Char :=
    match t with
    | '-' :: r => (true, r)
    | '+' :: r => (false, r)
    | r => (false, r)
  let ipRun := takeDigits sgn.2
  let signed : Nat → Int := fun n => if sgn.1 then -(n : Int) else (n : Int)
  match ipRun.2 with
  | [] =>
    if ipRun.1.length = 0 then none
    else some ⟨signed (natOfDigits ipRun.1), 0⟩
  | '.' :: w =>
    let fpRun := takeDigits w
    if fpRun.2 = [] ∧ 0 < ipRun.1.length + fpRun.1.length then
      some ⟨signed (natOfDigits (ipRun.1 ++ fpRun.1)), fpRun.1.length⟩
    else none
  | _ => none

/-! ### Calendar arithmetic (proleptic Gregorian, as Python's `datetime`) -/

def isLeap (y : Nat) : Bool := (y % 4 == 0 && y % 100 != 0) || y % 400 == 0

def daysInYear (y : Nat) : Nat := if isLeap y then 366 else 365

/-- Days from 0001-01-01 to the start of year `y` (so
`daysBeforeYear y + 1` is Python's `date(y, 1, 1).toordinal()`). -/
def daysBeforeYear (y : Nat) : Nat :=
  365 * (y - 1) + (y - 1) / 4 + (y - 1) / 400 - (y - 1) / 100

theorem daysBeforeYear_succ (y : Nat) (hy : 1 ≤ y) :
    daysBeforeYear (y + 1) = daysBeforeYear y + daysInYear y := by
  by_cases h4 : y % 4 = 0 <;> by_cases h100 : y % 100 = 0 <;> by_cases h400 : y % 400 = 0 <;>
    simp only [daysBeforeYear, daysInYear, isLeap, h4, h100, h400, Nat.add_sub_cancel,
      beq_iff_eq, bne_iff_ne, ne_eq, Bool.or_eq_true, Bool.and_eq_true, decide_eq_true_eq,
      not_false_eq_true, not_true_eq_false, and_true, and_false, or_false, or_true,
      false_or, true_or, if_true, if_false, ite_true, ite_false] <;>
    omega

theorem daysBeforeYear_le_of_lt (y1 y2 : Nat) (hy : 1 ≤ y1) (h : y1 < y2) :
    daysBeforeYear y1 + daysInYear y1 ≤ daysBeforeYear y2 := by
  induction y2 with
  | zero => omega
  | succ n ih =>
    rcases Nat.lt_succ_iff_lt_or_eq.mp h with h' | h'
    · have hn : 1 ≤ n := by omega
      calc daysBeforeYear y1 + daysInYear y1 ≤ daysBeforeYear n := ih h'
        _ ≤ daysBeforeYear n + daysInYear n := Nat.le_add_right _ _
        _ = daysBeforeYear (n + 1) := (daysBeforeYear_succ n hn).symm
    · subst h'
      exact le_of_eq (daysBeforeYear_succ y1 hy).symm

/-- A parsed epoch timestamp (the fields of the `datetime` that
`datetime.strptime(..., "%Y-%jT%H:%M:%S.%fZ")` produces, kept in
year/day-of-year form). -/
structure PyEpoch where
  y : Nat
  j : Nat
  h : Nat
  mi : Nat
  s : Nat
  usec : Nat
deriving DecidableEq, Repr

/-- Microseconds from 0001-001T00:00:00 to the given epoch (UTC). -/
def epochMicros (e : PyEpoch) : Nat :=
  ((daysBeforeYear e.y + (e.j - 1)) * 86400 + e.h * 3600 + e.mi * 60 + e.s) * 1000000
    + e.usec

/-- The value checks of the `datetime` constructor reached at the end of
`strptime`: `MINYEAR = 1`; seconds 60/61 (admitted by the `%S` pattern) are
out of range for `datetime`; `date.fromordinal` tops out at ordinal 3652059
(9999-12-31), which a day-366 of year 9999 would exceed. -/
def mkPyDatetime (y j h mi sec usec : Nat) : Option PyEpoch :=
  if 1 ≤ y ∧ sec ≤ 59 ∧ daysBeforeYear y + j ≤ 3652059 then
    some ⟨y, j, h, mi, sec, usec⟩
  else none

/-- `datetime.strptime(s, "%Y-%jT%H:%M:%S.%fZ")`, as used by
`convert_epoch_to_datetime` and `find_closest_epoch.parse_epoch`.
The component patterns follow CPython's `_strptime` regular expressions:
`%Y` is exactly four digits; `%j` is one to three digits with value 1..366;
`%H` is one or two digits with value 0..23; `%M` one or two digits 0..59;
`%S` one or two digits 0..61; `%f` one to six digits, scaled to
microseconds; literal `T`/`Z` match case-insensitively (the pattern is
compiled with `re.IGNORECASE`); the whole string must be consumed.
A failure models the `ValueError` raised by `strptime`. -/
def pyStrptimeEpoch (s : String) : Option PyEpoch :=
  let yRun := takeDigits s.data
  if yRun.1.length = 4 then
    match yRun.2 with
    | '-' :: r2 =>
      let jRun := takeDigits r2
      if 1 ≤ jRun.1.length ∧ jRun.1.length ≤ 3
          ∧ 1 ≤ natOfDigits jRun.1 ∧ natOfDigits jRun.1 ≤ 366 then
        match jRun.2 with
        | ct :: r4 =>
          if ct = 'T' ∨ ct = 't' then
            let hRun := takeDigits r4
            if 1 ≤ hRun.1.length ∧ hRun.1.length ≤ 2 ∧ natOfDigits hRun.1 ≤ 23 then
              match hRun.2 with
              | ':' :: r6 =>
                let miRun := takeDigits r6
                if 1 ≤ miRun.1.length ∧ miRun.1.length ≤ 2 ∧ natOfDigits miRun.1 ≤ 59 then
                  match miRun.2 with
                  | ':' :: r8 =>
                    let sRun := takeDigits r8
                    if 1 ≤ sRun.1.length ∧ sRun.1.length ≤ 2 ∧ natOfDigits sRun.1 ≤ 61 then
                      match sRun.2 with
                      | '.' :: r10 =>
                        let fRun := takeDigits r10
                        if 1 ≤ fRun.1.length ∧ fRun.1.length ≤ 6 then
                          match fRun.2 with
                          | [cz] =>
                            if cz = 'Z' ∨ cz = 'z' then
                              mkPyDatetime (natOfDigits yRun.1) (natOfDigits jRun.1)
                                (natOfDigits hRun.1) (natOfDigits miRun.1)
                                (natOfDigits sRun.1)
                                (natOfDigits fRun.1 * 10 ^ (6 - fRun.1.length))
                            else none
                          | _ => none
                        else none
                      | _ => none
                    else none
                  | _ => none
                else none
              | _ => none
            else none
          else none
        | _ => none
      else none
    | _ => none
  else none

/-- Epoch string to absolute microseconds, bundling parse and conversion. -/
def parseEpochMicros (s : String) : Option Int :=
  (pyStrptimeEpoch s).map (fun e => (epochMicros e : Int))

/-- Cumulative days before month `m` (1-based) in a year with leap flag. -/
def daysBeforeMonth (leap : Bool) (m : Nat) : Nat :=
  let feb := if leap then 29 else 28
  match m with
  | 1 => 0
  | 2 => 31
  | 3 => 31 + feb
  | 4 => 62 + feb
  | 5 => 92 + feb
  | 6 => 123 + feb
  | 7 => 153 + feb
  | 8 => 184 + feb
  | 9 => 215 + feb
  | 10 => 245 + feb
  | 11 => 276 + feb
  | 12 => 306 + feb
  | _ => 337 + feb

/-- Microseconds from 0001-01-01T00:00:00 to a civil UTC datetime. -/
def civilMicros (y mo d h mi s usec : Nat) : Nat :=
  ((daysBeforeYear y + daysBeforeMonth (isLeap y) mo + (d - 1)) * 86400
    + h * 3600 + mi * 60 + s) * 1000000 + usec

/-! ### Feed parsing (`parse_iss_data`) -/

/-- One `<stateVector>` candidate entry of the feed document.  A field is
`some s` when the corresponding child element is present with text `s` and
`none` when `state.find(...)` returns `None`.  (Elements present with empty
text, which would raise `TypeError` at the `float` call just as unparseable
text raises `ValueError`, are outside the modelled inputs.) -/
structure SVEntry where
  epoch : Option String
  x : Option String
  y : Option String
  z : Option String
  x_dot : Option String
  y_dot : Option String
  z_dot : Option String
deriving DecidableEq, Repr

/-- A parsed state vector as built by `parse_iss_data`: the raw `EPOCH`
text plus the six numeric components.  (`parse_iss_data` performs no
validation of the epoch text.) -/
structure PState where
  EPOCH : String
  X : PyFloat
  Y : PyFloat
  Z : PyFloat
  X_DOT : PyFloat
  Y_DOT : PyFloat
  Z_DOT : PyFloat
deriving DecidableEq, Repr

/-- All seven child elements are present. -/
def entryComplete (e : SVEntry) : Bool :=
  e.epoch.isSome && e.x.isSome && e.y.isSome && e.z.isSome
    && e.x_dot.isSome && e.y_dot.isSome && e.z_dot.isSome

/-- The record an entry would produce: `some` exactly when all seven fields
are present and the six numeric texts parse as floats. -/
def recOf (e : SVEntry) : Option PState :=
  match e.epoch, e.x, e.y, e.z, e.x_dot, e.y_dot, e.z_dot with
  | some ep, some xs, some ys, some zs, some xds, some yds, some zds =>
    match pythonFloat xs, pythonFloat ys, pythonFloat zs,
        pythonFloat xds, pythonFloat yds, pythonFloat zds with
    | some xv, some yv, some zv, some xdv, some ydv, some zdv =>
      some ⟨ep, xv, yv, zv, xdv, ydv, zdv⟩
    | _, _, _, _, _, _ => none
  | _, _, _, _, _, _, _ => none

/-- `parse_iss_data` over an already-parsed document (the list of
`stateVector` entries found anywhere in the tree).  An entry with a missing
element is skipped with an error log — the `Nat` counts those logged
rejections — and parsing continues; an entry whose six components are all
present but where some text fails `float(...)` raises `ValueError`, which
the source does not catch, aborting the whole parse (`.error ()`). -/
def parse_iss_data : List SVEntry → Except Unit (List PState × Nat)
  | [] => .ok ([], 0)
  | e :: rest =>
    match e.epoch, e.x, e.y, e.z, e.x_dot, e.y_dot, e.z_dot with
    | some ep, some xs, some ys, some zs, some xds, some yds, some zds =>
      match pythonFloat xs, pythonFloat ys, pythonFloat zs,
          pythonFloat xds, pythonFloat yds, pythonFloat zds with
      | some xv, some yv, some zv, some xdv, some ydv, some zdv =>
        (parse_iss_data rest).map (fun r => (⟨ep, xv, yv, zv, xdv, ydv, zdv⟩ :: r.1, r.2))
      | _, _, _, _, _, _ => .error ()
    | _, _, _, _, _, _, _ =>
      (parse_iss_data rest).map (fun r => (r.1, r.2 + 1))

/-! ### The Redis store and `load_data_to_redis` -/

/-- The hash stored under one `epoch:`-prefixed key.  The source stores
`str(...)` of each rational and re-parses with `float(...)` on read; the
embedding identifies that round trip and keeps the values. -/
structure RecordData where
  x : PyFloat
  y : PyFloat
  z : PyFloat
  x_dot : PyFloat
  y_dot : PyFloat
  z_dot : PyFloat
deriving DecidableEq, Repr

def dataOf (p : PState) : RecordData := ⟨p.X, p.Y, p.Z, p.X_DOT, p.Y_DOT, p.Z_DOT⟩

/-- The Redis database: an association of key strings to stored hashes. -/
abbrev Store := List (String × RecordData)

def lookupStore : Store → String → Option RecordData
  | [], _ => none
  | kv :: rest, k => if kv.1 = k then some kv.2 else lookupStore rest k

/-- `redis_client.hset(k, mapping=data)`: since the mapping always carries
all six fields and stored hashes only ever have these six fields, this is a
full replace of the value at `k` (or an insert when `k` is new). -/
def hsetStore (st : Store) (k : String) (d : RecordData) : Store :=
  match st with
  | [] => [(k, d)]
  | kv :: rest => if kv.1 = k then (k, d) :: rest else kv :: hsetStore rest k d

/-- Write every parsed state vector under its `epoch:`-prefixed key, in
document order. -/
def writeAll (svs : List PState) (st : Store) : Store :=
  svs.foldl (fun acc p => hsetStore acc ("epoch:" ++ p.EPOCH) (dataOf p)) st

/-- `load_data_to_redis`, with the network fetch as a parameter (`none`
models a failed `fetch_iss_data`).  The per-state `EPOCH`/required-fields
checks in the source's loop are vacuous — `parse_iss_data` only ever emits
complete seven-field records — so the loop body always performs the `hset`.
A `ValueError` raised inside `parse_iss_data` is not caught and propagates
out (`.error ()`) before any write happens. -/
def load_data_to_redis (fetched : Option (List SVEntry)) (st : Store) : Except Unit Store :=
  match fetched with
  | none => .ok st
  | some doc =>
    match parse_iss_data doc with
    | .error e => .error e
    | .ok (svs, _) =>
      if svs.isEmpty then .ok st
      else .ok (writeAll svs st)

/-- Store states producible by (repeated) runs of `load_data_to_redis`
starting from an empty database. -/
inductive ReachableStore : Store → Prop
  | empty : ReachableStore []
  | load (st st' : Store) (fetched : Option (List SVEntry)) :
      ReachableStore st → load_data_to_redis fetched st = .ok st' → ReachableStore st'

theorem mem_hsetStore (st : Store) (k : String) (d : RecordData) :
    ∀ kv ∈ hsetStore st k d, kv ∈ st ∨ kv.1 = k := by
  induction st with
  | nil => intro kv h; simp [hsetStore] at h; simp [h]
  | cons hd rest ih =>
    intro kv h
    unfold hsetStore at h
    split at h
    · rcases List.mem_cons.mp h with rfl | h
      · right; rfl
      · left; exact List.mem_cons_of_mem _ h
    · rcases List.mem_cons.mp h with rfl | h
      · left; exact List.mem_cons_self _ _
      · rcases ih kv h with h' | h'
        · left; exact List.mem_cons_of_mem _ h'
        · right; exact h'

theorem mem_writeAll (svs : List PState) :
    ∀ (st : Store) (kv : String × RecordData), kv ∈ writeAll svs st →
      kv ∈ st ∨ ∃ p ∈ svs, kv.1 = "epoch:" ++ p.EPOCH := by
  induction svs with
  | nil => intro st kv h; exact Or.inl h
  | cons p rest ih =>
    intro st kv h
    rcases ih _ kv h with h' | ⟨q, hq, hk⟩
    · rcases mem_hsetStore st ("epoch:" ++ p.EPOCH) (dataOf p) kv h' with h'' | h''
      · exact Or.inl h''
      · exact Or.inr ⟨p, List.mem_cons_self _ _, h''⟩
    · exact Or.inr ⟨q, List.mem_cons_of_mem _ hq, hk⟩

theorem strHasPfx_append (p rest : String) : strHasPfx p (p ++ rest) = true := by
  unfold strHasPfx
  rw [String.data_append]
  exact isPrefixOf_append _ _

/-- Every key of a store produced only by `load_data_to_redis` carries the
`epoch:` prefix. -/
theorem reachable_keys_pfx (st : Store) (h : ReachableStore st) :
    ∀ kv ∈ st, strHasPfx "epoch:" kv.1 = true := by
  induction h with
  | empty => intro kv h; simp at h
  | load st st' fetched _ hload ih =>
    intro kv hkv
    rcases fetched with _ | doc
    · simp only [load_data_to_redis] at hload
      injection hload with h'
      subst h'
      exact ih kv hkv
    · simp only [load_data_to_redis] at hload
      rcases hp : parse_iss_data doc with e | ⟨svs, rej⟩
      · simp only [hp] at hload
        exact absurd hload (by simp)
      · simp only [hp] at hload
        by_cases he : svs.isEmpty
        · rw [if_pos he] at hload
          injection hload with h'
          subst h'
          exact ih kv hkv
        · rw [if_neg he] at hload
          injection hload with h'
          subst h'
          rcases mem_writeAll svs st kv hkv with h' | ⟨p, _, hk⟩
          · exact ih kv h'
          · rw [hk]; exact strHasPfx_append _ _

theorem lookupStore_hset_self (st : Store) (k : String) (d : RecordData) :
    lookupStore (hsetStore st k d) k = some d := by
  induction st with
  | nil => simp [hsetStore, lookupStore]
  | cons kv rest ih =>
    unfold hsetStore
    split
    · simp [lookupStore]
    · next hne =>
      unfold lookupStore
      rw [if_neg hne]
      exact ih

theorem lookupStore_hset_other (st : Store) (k : String) (d : RecordData) (k' : String)
    (h : k' ≠ k) : lookupStore (hsetStore st k d) k' = lookupStore st k' := by
  induction st with
  | nil =>
    unfold hsetStore lookupStore
    rw [if_neg (fun he => h he.symm)]
    rfl
  | cons kv rest ih =>
    unfold hsetStore
    split
    · next heq =>
      show lookupStore ((k, d) :: rest) k' = lookupStore (kv :: rest) k'
      unfold lookupStore
      rw [if_neg (fun he => h he.symm), if_neg (fun he => h (heq.symm.trans he).symm)]
    · unfold lookupStore
      by_cases hk : kv.1 = k'
      · rw [if_pos hk, if_pos hk]
      · rw [if_neg hk, if_neg hk]
        exact ih

theorem lookupStore_writeAll_untouched (svs : List PState) :
    ∀ (st : Store) (k : String), (∀ p ∈ svs, "epoch:" ++ p.EPOCH ≠ k) →
      lookupStore (writeAll svs st) k = lookupStore st k := by
  induction svs with
  | nil => intro st k _; rfl
  | cons p rest ih =>
    intro st k h
    have step : writeAll (p :: rest) st = writeAll rest (hsetStore st ("epoch:" ++ p.EPOCH) (dataOf p)) := rfl
    rw [step, ih _ k (fun q hq => h q (List.mem_cons_of_mem _ hq))]
    exact lookupStore_hset_other st _ _ k
      (fun he => h p (List.mem_cons_self _ _) he.symm)

theorem lookupStore_hset_isSome (st : Store) (k k' : String) (d : RecordData)
    (h : (lookupStore st k).isSome) : (lookupStore (hsetStore st k' d) k).isSome := by
  by_cases hk : k = k'
  · subst hk; rw [lookupStore_hset_self]; rfl
  · rw [lookupStore_hset_other st k' d k hk]; exact h

theorem lookupStore_writeAll_isSome (svs : List PState) :
    ∀ (st : Store) (k : String), (lookupStore st k).isSome →
      (lookupStore (writeAll svs st) k).isSome := by
  induction svs with
  | nil => intro st k h; exact h
  | cons p rest ih =>
    intro st k h
    exact ih _ k (lookupStore_hset_isSome st k _ (dataOf p) h)

/-- Every parsed record is present under its prefixed key after the write
loop. -/
theorem lookupStore_writeAll_mem (svs : List PState) :
    ∀ (st : Store), ∀ p ∈ svs,
      (lookupStore (writeAll svs st) ("epoch:" ++ p.EPOCH)).isSome := by
  induction svs with
  | nil => intro st p hp; simp at hp
  | cons q rest ih =>
    intro st p hp
    rcases List.mem_cons.mp hp with rfl | hp'
    · by_cases hmem : p ∈ rest
      · exact ih _ p hmem
      · have step : writeAll (p :: rest) st
            = writeAll rest (hsetStore st ("epoch:" ++ p.EPOCH) (dataOf p)) := rfl
        rw [step]
        apply lookupStore_writeAll_isSome
        rw [lookupStore_hset_self]
        rfl
    · exact ih _ p hp'

/-! ### `find_closest_epoch` -/

/-- A state vector as assembled by the `/now` route from the stored hash. -/
structure StateVec where
  epoch : String
  position : PyFloat × PyFloat × PyFloat
  velocity : PyFloat × PyFloat × PyFloat
deriving DecidableEq, Repr

/-- The inner `parse_epoch` helper of `find_closest_epoch`: strips every
occurrence of `"epoch:"` and applies `strptime` with UTC attached, yielding
an absolute time in microseconds. -/
def parse_epoch_micros (s : String) : Option Int :=
  parseEpochMicros (pyReplace s "epoch:" "")

/-- The `min` key `abs(parse_epoch(state["epoch"]) - current_time)`, in
microseconds; `none` models the `ValueError` raised by `strptime`. -/
def epochKey (now : Int) (sv : StateVec) : Option Nat :=
  (parse_epoch_micros sv.epoch).map (fun t => (t - now).natAbs)

inductive FindErr where
  | emptyInput
  | invalidEpoch
deriving DecidableEq, Repr

/-- The iteration of Python's `min`: keep the current best, replacing it
only when a later element's key is strictly smaller (so the first minimal
element in iteration order wins ties). -/
def minGo (now : Int) (best : StateVec) (kb : Nat) : List StateVec → Except FindErr StateVec
  | [] => .ok best
  | s :: rest =>
    match epochKey now s with
    | none => .error .invalidEpoch
    | some k => if k < kb then minGo now s k rest else minGo now best kb rest

/-- `find_closest_epoch(state_vectors)` with the wall-clock time
`datetime.now(timezone.utc)` as the parameter `now`.  On an empty list
Python's `min` raises `ValueError` (modelled `.error .emptyInput`); an
unparseable epoch raises `ValueError` from `strptime` (modelled
`.error .invalidEpoch`). -/
def find_closest_epoch (now : Int) : List StateVec → Except FindErr StateVec
  | [] => .error .emptyInput
  | s :: rest =>
    match epochKey now s with
    | none => .error .invalidEpoch
    | some k => minGo now s k rest

theorem minGo_spec (now : Int) :
    ∀ (l : List StateVec) (best : StateVec) (kb : Nat) (c : StateVec),
      epochKey now best = some kb → minGo now best kb l = .ok c →
      (∀ s ∈ l, ∃ k, epochKey now s = some k) ∧
      ((c = best ∧ ∀ s ∈ l, ∀ k, epochKey now s = some k → kb ≤ k) ∨
       (∃ kc pre post, epochKey now c = some kc ∧ kc < kb ∧ l = pre ++ c :: post ∧
          (∀ s ∈ pre, ∀ k, epochKey now s = some k → kc < k) ∧
          (∀ s ∈ post, ∀ k, epochKey now s = some k → kc ≤ k))) := by
  intro l
  induction l with
  | nil =>
    intro best kb c hb h
    simp only [minGo] at h
    injection h with h
    subst h
    exact ⟨by simp, Or.inl ⟨rfl, by simp⟩⟩
  | cons s rest ih =>
    intro best kb c hb h
    simp only [minGo] at h
    rcases hk : epochKey now s with _ | k
    · rw [hk] at h; exact absurd h (by simp)
    · simp only [hk] at h
      by_cases hlt : k < kb
      · rw [if_pos hlt] at h
        rcases ih s k c hk h with ⟨hall, hcase⟩
        refine ⟨?_, ?_⟩
        · intro t ht
          rcases List.mem_cons.mp ht with rfl | ht'
          · exact ⟨k, hk⟩
          · exact hall t ht'
        · rcases hcase with ⟨rfl, hmin⟩ | ⟨kc, pre, post, hkc, hkck, hsplit, hpre, hpost⟩
          · refine Or.inr ⟨k, [], rest, hk, hlt, rfl, by simp, hmin⟩
          · refine Or.inr ⟨kc, s :: pre, post, hkc, by omega, by rw [hsplit]; rfl, ?_, hpost⟩
            intro t ht hkt hkt'
            rcases List.mem_cons.mp ht with rfl | ht'
            · rw [hk] at hkt'; injection hkt' with he; omega
            · exact hpre t ht' hkt hkt'
      · rw [if_neg hlt] at h
        rcases ih best kb c hb h with ⟨hall, hcase⟩
        refine ⟨?_, ?_⟩
        · intro t ht
          rcases List.mem_cons.mp ht with rfl | ht'
          · exact ⟨k, hk⟩
          · exact hall t ht'
        · rcases hcase with ⟨rfl, hmin⟩ | ⟨kc, pre, post, hkc, hkck, hsplit, hpre, hpost⟩
          · refine Or.inl ⟨rfl, ?_⟩
            intro t ht kt hkt
            rcases List.mem_cons.mp ht with rfl | ht'
            · rw [hk] at hkt; injection hkt with he; omega
            · exact hmin t ht' kt hkt
          · refine Or.inr ⟨kc, s :: pre, post, hkc, hkck, by rw [hsplit]; rfl, ?_, hpost⟩
            intro t ht kt hkt
            rcases List.mem_cons.mp ht with rfl | ht'
            · rw [hk] at hkt; injection hkt with he; omega
            · exact hpre t ht' kt hkt

/-- Specification of `find_closest_epoch` on a successful run: the result
is an element of the input; every input epoch parses; the result's key is a
minimum; and the result is the first element of the input attaining it. -/
theorem find_closest_epoch_spec (now : Int) (svs : List StateVec) (c : StateVec)
    (h : find_closest_epoch now svs = .ok c) :
    (∀ s ∈ svs, ∃ k, epochKey now s = some k) ∧
    ∃ kc pre post, epochKey now c = some kc ∧ svs = pre ++ c :: post ∧
      (∀ s ∈ pre, ∀ k, epochKey now s = some k → kc < k) ∧
      (∀ s ∈ svs, ∀ k, epochKey now s = some k → kc ≤ k) := by
  rcases svs with _ | ⟨s, rest⟩
  · simp [find_closest_epoch] at h
  · simp only [find_closest_epoch] at h
    rcases hk : epochKey now s with _ | k
    · rw [hk] at h; exact absurd h (by simp)
    · simp only [hk] at h
      rcases minGo_spec now rest s k c hk h with ⟨hall, hcase⟩
      have hallcons : ∀ t ∈ s :: rest, ∃ kt, epochKey now t = some kt := by
        intro t ht
        rcases List.mem_cons.mp ht with rfl | ht'
        · exact ⟨k, hk⟩
        · exact hall t ht'
      refine ⟨hallcons, ?_⟩
      rcases hcase with ⟨rfl, hmin⟩ | ⟨kc, pre, post, hkc, hkck, hsplit, hpre, hpost⟩
      · refine ⟨k, [], rest, hk, rfl, by simp, ?_⟩
        intro t ht kt hkt
        rcases List.mem_cons.mp ht with rfl | ht'
        · rw [hk] at hkt; injection hkt with he; omega
        · exact hmin t ht' kt hkt
      · refine ⟨kc, s :: pre, post, hkc, by rw [hsplit]; rfl, ?_, ?_⟩
        · intro t ht kt hkt
          rcases List.mem_cons.mp ht with rfl | ht'
          · rw [hk] at hkt; injection hkt with he; omega
          · exact hpre t ht' kt hkt
        · intro t ht kt hkt
          rcases List.mem_cons.mp ht with rfl | ht'
          · rw [hk] at hkt; injection hkt with he; omega
          · rw [hsplit] at ht'
            rcases List.mem_append.mp ht' with hp | hp
            · exact le_of_lt (hpre t hp kt hkt)
            · rcases List.mem_cons.mp hp with rfl | hp'
              · rw [hkc] at hkt; injection hkt with he; omega
              · exact hpost t hp' kt hkt

/-! ### The `/epochs` route (`get_epochs`) -/

/-- The epoch list the route builds before pagination:
`redis_client.keys("epoch:*")` (all keys matching the glob, in enumeration
order), each with every `"epoch:"` occurrence removed, then `sort()`ed. -/
def epochListing (st : Store) : List String :=
  pySort (((st.map Prod.fst).filter (fun k => strHasPfx "epoch:" k)).map
    (fun k => pyReplace k "epoch:" ""))

/-- `get_epochs` with the query parameters as read by
`request.args.get("limit", type=int)` (absent/unparseable gives `none`) and
`request.args.get("offset", type=int, default=0)`.  The source's `if limit:`
is Python truthiness: both an absent limit and `limit == 0` take the
unlimited branch `epochs[offset:]`; otherwise `epochs[offset:offset+limit]`. -/
def get_epochs (st : Store) (offsetParam limitParam : Option Int) : List String :=
  let epochs := epochListing st
  let offv := offsetParam.getD 0
  match limitParam with
  | some l => if l = 0 then pySliceFrom epochs offv else pySliceTake epochs offv (offv + l)
  | none => pySliceFrom epochs offv

/-! ### The `/epochs/<epoch>/location` route (`get_epoch_location`) -/

/-- A Python dictionary key: `str` and `bytes` keys are never equal. -/
inductive PyKey where
  | pystr (s : String)
  | pybytes (s : String)
deriving DecidableEq, Repr

/-- `redis_client.hgetall(key)` with `decode_responses=True`: a dict with
`str` keys (insertion order of the stored mapping). -/
def hgetallPairs (d : RecordData) : List (PyKey × PyFloat) :=
  [(.pystr "x", d.x), (.pystr "y", d.y), (.pystr "z", d.z),
   (.pystr "x_dot", d.x_dot), (.pystr "y_dot", d.y_dot), (.pystr "z_dot", d.z_dot)]

/-- Python `dict[key]`; `none` models the raised `KeyError`. -/
def pyDictGet : List (PyKey × PyFloat) → PyKey → Option PyFloat
  | [], _ => none
  | kv :: rest, k => if kv.1 = k then some kv.2 else pyDictGet rest k

/-- Iterating the dict returned by `convert_cartesian_to_geo` yields its
keys in insertion order; both the success and the except branch build a
four-key dict with exactly these keys. -/
def geoDictKeys : List String := ["latitude", "longitude", "altitude", "geoposition"]

/-- Python unpacking of an iterable into three targets
(`a, b, c = xs`); `none` models the raised `ValueError` when the iterable
does not have exactly three elements. -/
def unpack3 : List String → Option (String × String × String)
  | [a, b, c] => some (a, b, c)
  | _ => none

inductive LocResult where
  | notFound (decoded : String)
  | internalError
  | success
deriving DecidableEq, Repr

/-- The `/epochs/<epoch>/location` handler.  It checks existence under the
*bare* decoded epoch (no `epoch:` prefix), then evaluates `data[b'x']` etc.
with `bytes` keys against the `str`-keyed dict `hgetall` returned, and —
were that ever reached — would unpack the four-key dict returned by
`convert_cartesian_to_geo` into three variables.  Any raised error lands in
the route's catch-all `except`, returning the 500 response
(`.internalError`). -/
def get_epoch_location (st : Store) (epoch : String) : LocResult :=
  let decoded := pyReplace epoch "%20" " "
  match lookupStore st decoded with
  | none => .notFound decoded
  | some d =>
    match pyDictGet (hgetallPairs d) (.pybytes "x"),
        pyDictGet (hgetallPairs d) (.pybytes "y"),
        pyDictGet (hgetallPairs d) (.pybytes "z") with
    | some _, some _, some _ =>
      match unpack3 geoDictKeys with
      | some _ => .success
      | none => .internalError
    | _, _, _ => .internalError

/-! ### Coordinate transform and the `/now` route -/

/-- `math.atan2(y, x)`: the argument of the complex number `x + y i`,
with `atan2(0, 0) = 0` (as in IEEE/CPython). -/
noncomputable def atan2 (y x : ℝ) : ℝ := Complex.arg ⟨x, y⟩

/-- `math.degrees`. -/
noncomputable def math_degrees (r : ℝ) : ℝ := r * 180 / Real.pi

/-- Outcome of the embedded `geolocator.reverse` call: a location with an
address, `None`, or a raised exception (timeout/network failure). -/
inductive GeoOutcome where
  | ok (address : String)
  | okNone
  | raise
deriving DecidableEq, Repr

/-- The dict `convert_cartesian_to_geo` returns (keys in `geoDictKeys`
order); `none` numeric fields model the Python `None` values of the
except-branch dict. -/
structure GeoResult where
  latitude : Option ℝ
  longitude : Option ℝ
  altitude : Option ℝ
  geoposition : String

/-- `convert_cartesian_to_geo(x, y, z)` with the geocoder outcome as a
parameter.  The whole body sits in one `try`: the math never raises
(`atan2` and `sqrt` are total), so only the geocoder can throw, and the
`except` branch then returns the all-`None` dict with the
`"Error retrieving location"` sentinel — discarding the computed numbers. -/
noncomputable def convert_cartesian_to_geo (geo : GeoOutcome) (x y z : ℝ) : GeoResult :=
  let latitude := math_degrees (atan2 z (Real.sqrt (x ^ 2 + y ^ 2)))
  let longitude := math_degrees (atan2 y x)
  let altitude := Real.sqrt (x ^ 2 + y ^ 2 + z ^ 2) - 6371
  match geo with
  | .ok addr => ⟨some latitude, some longitude, some altitude, addr⟩
  | .okNone => ⟨some latitude, some longitude, some altitude, "Unknown Location"⟩
  | .raise => ⟨none, none, none, "Error retrieving location"⟩

/-- `calculate_speed(velocity)`. -/
noncomputable def calculate_speed (v : ℝ × ℝ × ℝ) : ℝ :=
  Real.sqrt (v.1 ^ 2 + v.2.1 ^ 2 + v.2.2 ^ 2)

/-- The state-vector list the `/now` route assembles from
`redis_client.keys("epoch:*")` (enumeration in store order): every stored
hash carries all six fields, so the route's required-fields check always
passes, and the key is stripped of its `"epoch:"` occurrences. -/
def nowStateVectors (st : Store) : List StateVec :=
  (st.filter (fun kv => strHasPfx "epoch:" kv.1)).map
    (fun kv => ⟨pyReplace kv.1 "epoch:" "",
      (kv.2.x, kv.2.y, kv.2.z), (kv.2.x_dot, kv.2.y_dot, kv.2.z_dot)⟩)

inductive NowResult where
  | error500 (msg : String)
  | ok (epoch : String) (latitude longitude altitude : Option ℝ)
      (geoposition : String) (speed : ℝ)

/-- The `/now` handler (`get_now_location`): builds the state vectors,
returns the 500 "No ISS data available" response when none exist, finds the
closest epoch (a `ValueError` from `min`/`strptime` would land in the
route's catch-all `except`), converts the position, and answers with the
`.get(...)`-projected geo fields plus the instantaneous speed. -/
noncomputable def get_now_location (now : Int) (geo : GeoOutcome) (st : Store) : NowResult :=
  let svs := nowStateVectors st
  if svs.isEmpty then .error500 "No ISS data available"
  else
    match find_closest_epoch now svs with
    | .error _ => .error500 "Internal Server Error"
    | .ok c =>
      let g := convert_cartesian_to_geo geo c.position.1.toReal
        c.position.2.1.toReal c.position.2.2.toReal
      .ok c.epoch g.latitude g.longitude g.altitude g.geoposition
        (calculate_speed (c.velocity.1.toReal, c.velocity.2.1.toReal, c.velocity.2.2.toReal))

/-- Projection of the latitude field of a `/now` response (`none` when the
response was an error). -/
def nowLatitude : NowResult → Option (Option ℝ)
  | .error500 _ => none
  | .ok _ lat _ _ _ _ => some lat

/-- Projection of the geoposition field of a `/now` response. -/
def nowGeoposition : NowResult → Option String
  | .error500 _ => none
  | .ok _ _ _ _ g _ => some g

/-! ### Canonically formatted epoch strings

The feed's epoch strings are fixed-width `YYYY-DDDThh:mm:ss`, a dot, a
fraction of a fixed number of digits, and `Z`.  For a store whose epochs all
share that shape, the route's lexicographic `sort()` coincides with
chronological order; this section proves that bridge. -/

/-- The ASCII digit character for `d` (`d < 10`). -/
def dChar (d : Nat) : Char := Char.ofNat (48 + d)

/-- Fixed-width zero-padded decimal rendering (most significant first). -/
def padDig : (width : Nat) → Nat → List Char
  | 0, _ => []
  | w + 1, n => dChar (n / 10 ^ w % 10) :: padDig w (n % 10 ^ w)

theorem dChar_toNat : ∀ d < 10, (dChar d).toNat = 48 + d := by decide

theorem pyLt_cons_same (c : Char) (xs ys : List Char) :
    pyLt (c :: xs) (c :: ys) = pyLt xs ys := by
  rw [pyLt_cons]; simp

theorem pyLt_padDig_append (w : Nat) :
    ∀ (a b : Nat) (xs ys : List Char), a < 10 ^ w → b < 10 ^ w →
      pyLt (padDig w a ++ xs) (padDig w b ++ ys)
        = if a < b then true else if b < a then false else pyLt xs ys := by
  induction w with
  | zero =>
    intro a b xs ys ha hb
    have ha0 : a = 0 := by simpa using ha
    have hb0 : b = 0 := by simpa using hb
    subst ha0; subst hb0
    simp [padDig]
  | succ w ih =>
    intro a b xs ys ha hb
    have hp : 0 < 10 ^ w := Nat.pos_pow_of_pos w (by norm_num)
    have hpow : 10 ^ (w + 1) = 10 ^ w * 10 := pow_succ 10 w
    have hqa : a / 10 ^ w < 10 := by
      rw [Nat.div_lt_iff_lt_mul hp]; omega
    have hqb : b / 10 ^ w < 10 := by
      rw [Nat.div_lt_iff_lt_mul hp]; omega
    have hra : a % 10 ^ w < 10 ^ w := Nat.mod_lt _ hp
    have hrb : b % 10 ^ w < 10 ^ w := Nat.mod_lt _ hp
    have haeq : 10 ^ w * (a / 10 ^ w) + a % 10 ^ w = a := Nat.div_add_mod a (10 ^ w)
    have hbeq : 10 ^ w * (b / 10 ^ w) + b % 10 ^ w = b := Nat.div_add_mod b (10 ^ w)
    have hma : a / 10 ^ w % 10 = a / 10 ^ w := Nat.mod_eq_of_lt hqa
    have hmb : b / 10 ^ w % 10 = b / 10 ^ w := Nat.mod_eq_of_lt hqb
    show pyLt (dChar (a / 10 ^ w % 10) :: (padDig w (a % 10 ^ w) ++ xs))
        (dChar (b / 10 ^ w % 10) :: (padDig w (b % 10 ^ w) ++ ys)) = _
    rw [hma, hmb, pyLt_cons, dChar_toNat _ hqa, dChar_toNat _ hqb]
    rcases Nat.lt_trichotomy (a / 10 ^ w) (b / 10 ^ w) with hq | hq | hq
    · rw [if_pos (by omega)]
      have hab : a < b := by
        calc a = 10 ^ w * (a / 10 ^ w) + a % 10 ^ w := haeq.symm
          _ < 10 ^ w * (a / 10 ^ w) + 10 ^ w := by omega
          _ = 10 ^ w * (a / 10 ^ w + 1) := by ring
          _ ≤ 10 ^ w * (b / 10 ^ w) := Nat.mul_le_mul_left _ (by omega)
          _ ≤ b := by omega
      rw [if_pos hab]
    · rw [if_neg (by omega), if_neg (by omega)]
      rw [ih (a % 10 ^ w) (b % 10 ^ w) xs ys hra hrb]
      have hiff : a < b ↔ a % 10 ^ w < b % 10 ^ w := by
        constructor <;> intro hlt
        · by_contra hc
          have : b ≤ a := by
            calc b = 10 ^ w * (b / 10 ^ w) + b % 10 ^ w := hbeq.symm
              _ = 10 ^ w * (a / 10 ^ w) + b % 10 ^ w := by rw [hq]
              _ ≤ 10 ^ w * (a / 10 ^ w) + a % 10 ^ w := by omega
              _ = a := haeq
          omega
        · calc a = 10 ^ w * (a / 10 ^ w) + a % 10 ^ w := haeq.symm
            _ < 10 ^ w * (b / 10 ^ w) + b % 10 ^ w := by rw [hq] at *; omega
            _ = b := hbeq
      have hiff' : b < a ↔ b % 10 ^ w < a % 10 ^ w := by
        constructor <;> intro hlt
        · by_contra hc
          have : a ≤ b := by
            calc a = 10 ^ w * (a / 10 ^ w) + a % 10 ^ w := haeq.symm
              _ = 10 ^ w * (b / 10 ^ w) + a % 10 ^ w := by rw [hq]
              _ ≤ 10 ^ w * (b / 10 ^ w) + b % 10 ^ w := by omega
              _ = b := hbeq
          omega
        · calc b = 10 ^ w * (b / 10 ^ w) + b % 10 ^ w := hbeq.symm
            _ < 10 ^ w * (a / 10 ^ w) + a % 10 ^ w := by rw [hq] at *; omega
            _ = a := haeq
      rcases Nat.lt_trichotomy (a % 10 ^ w) (b % 10 ^ w) with hr | hr | hr
      · rw [if_pos hr, if_pos (hiff.mpr hr)]
      · rw [if_neg (by omega), if_neg (by omega),
          if_neg (by rw [hiff]; omega), if_neg (by rw [hiff']; omega)]
      · rw [if_neg (by omega), if_pos hr,
          if_neg (by rw [hiff]; omega), if_pos (hiff'.mpr hr)]
    · rw [if_neg (by omega), if_pos (by omega)]
      have hba : b < a := by
        calc b = 10 ^ w * (b / 10 ^ w) + b % 10 ^ w := hbeq.symm
          _ < 10 ^ w * (b / 10 ^ w) + 10 ^ w := by omega
          _ = 10 ^ w * (b / 10 ^ w + 1) := by ring
          _ ≤ 10 ^ w * (a / 10 ^ w) := Nat.mul_le_mul_left _ (by omega)
          _ ≤ a := by omega
      rw [if_neg (by omega), if_pos hba]

/-- The digit fields of a canonically formatted epoch string. -/
structure EpochTuple where
  y : Nat
  j : Nat
  h : Nat
  mi : Nat
  s : Nat
  f : Nat
deriving DecidableEq, Repr

/-- Render the canonical fixed-width epoch string
`YYYY-DDDThh:mm:ss.<f padded to w digits>Z`. -/
def renderEpoch (w : Nat) (t : EpochTuple) : List Char :=
  padDig 4 t.y ++ '-' :: (padDig 3 t.j ++ 'T' :: (padDig 2 t.h
    ++ ':' :: (padDig 2 t.mi ++ ':' :: (padDig 2 t.s
    ++ '.' :: (padDig w t.f ++ ['Z'])))))

/-- Well-formedness of the digit fields: a real calendar date (day-of-year
within the year) and in-range time-of-day components. -/
def CanonTuple (w : Nat) (t : EpochTuple) : Prop :=
  1 ≤ t.y ∧ t.y < 10000 ∧ 1 ≤ t.j ∧ t.j ≤ daysInYear t.y ∧ t.h ≤ 23
    ∧ t.mi ≤ 59 ∧ t.s ≤ 59 ∧ t.f < 10 ^ w ∧ 1 ≤ w ∧ w ≤ 6

/-- The UTC instant (microseconds from 0001-001T00:00:00) denoted by a
canonical epoch tuple whose fraction field has `w` digits. -/
def microsOfTuple (w : Nat) (t : EpochTuple) : Nat :=
  ((daysBeforeYear t.y + (t.j - 1)) * 86400 + t.h * 3600 + t.mi * 60 + t.s) * 1000000
    + t.f * 10 ^ (6 - w)

/-- A string is a canonical epoch with fraction width `w`. -/
def CanonEpoch (w : Nat) (s : String) : Prop :=
  ∃ t, CanonTuple w t ∧ s.data = renderEpoch w t

/-- Chronological comparison of two canonical epoch strings through their
denoted instants. -/
def chronLE (w : Nat) (a b : String) : Prop :=
  ∃ ta tb, CanonTuple w ta ∧ a.data = renderEpoch w ta
    ∧ CanonTuple w tb ∧ b.data = renderEpoch w tb
    ∧ microsOfTuple w ta ≤ microsOfTuple w tb

/-- Strict lexicographic order on the digit tuples. -/
def tupleLexLt (t1 t2 : EpochTuple) : Prop :=
  t1.y < t2.y ∨ (t1.y = t2.y ∧ (t1.j < t2.j ∨ (t1.j = t2.j
    ∧ (t1.h < t2.h ∨ (t1.h = t2.h ∧ (t1.mi < t2.mi ∨ (t1.mi = t2.mi
    ∧ (t1.s < t2.s ∨ (t1.s = t2.s ∧ t1.f < t2.f)))))))))

theorem fracMicros_lt (f w : Nat) (hf : f < 10 ^ w) (hw : w ≤ 6) :
    f * 10 ^ (6 - w) < 1000000 := by
  have hp : 0 < 10 ^ (6 - w) := Nat.pos_pow_of_pos _ (by norm_num)
  calc f * 10 ^ (6 - w) < 10 ^ w * 10 ^ (6 - w) := by
        exact Nat.mul_lt_mul_of_lt_of_le hf (le_refl _) hp
    _ = 10 ^ (w + (6 - w)) := (pow_add 10 w (6 - w)).symm
    _ = 1000000 := by rw [show w + (6 - w) = 6 by omega]; norm_num

theorem microsOfTuple_lt (w : Nat) (t1 t2 : EpochTuple)
    (h1 : CanonTuple w t1) (h2 : CanonTuple w t2) (hlex : tupleLexLt t1 t2) :
    microsOfTuple w t1 < microsOfTuple w t2 := by
  obtain ⟨hy1, hy1', hj1, hj1', hh1, hm1, hs1, hf1, hw1, hw6⟩ := h1
  obtain ⟨hy2, hy2', hj2, hj2', hh2, hm2, hs2, hf2, _, _⟩ := h2
  have hfm1 := fracMicros_lt t1.f w hf1 hw6
  have hfm2 := fracMicros_lt t2.f w hf2 hw6
  unfold microsOfTuple
  rcases hlex with hy | ⟨hyeq, hrest⟩
  · have hgap := daysBeforeYear_le_of_lt t1.y t2.y hy1 hy
    omega
  · rw [hyeq]
    rcases hrest with hj | ⟨hjeq, hrest⟩
    · omega
    · rw [hjeq]
      rcases hrest with hh | ⟨hheq, hrest⟩
      · omega
      · rw [hheq]
        rcases hrest with hm | ⟨hmeq, hrest⟩
        · omega
        · rw [hmeq]
          rcases hrest with hs | ⟨hseq, hf⟩
          · omega
          · rw [hseq]
            have hfmul : t1.f * 10 ^ (6 - w) < t2.f * 10 ^ (6 - w) :=
              Nat.mul_lt_mul_of_lt_of_le hf (le_refl _)
                (Nat.pos_pow_of_pos _ (by norm_num))
            omega

/-- If the rendered form of `t2` is not lexicographically below that of
`t1`, then `t1` is lexicographically at most `t2` as a digit tuple. -/
theorem pyLt_render_false (w : Nat) (t1 t2 : EpochTuple)
    (h1 : CanonTuple w t1) (h2 : CanonTuple w t2)
    (h : pyLt (renderEpoch w t2) (renderEpoch w t1) = false) :
    t1 = t2 ∨ tupleLexLt t1 t2 := by
  obtain ⟨hy1, hy1', hj1, hj1', hh1, hm1, hs1, hf1, hw1, hw6⟩ := h1
  obtain ⟨hy2, hy2', hj2, hj2', hh2, hm2, hs2, hf2, _, _⟩ := h2
  have hj1b : t1.j < 10 ^ 3 := by
    have := hj1'; unfold daysInYear at this; split at this <;> omega
  have hj2b : t2.j < 10 ^ 3 := by
    have := hj2'; unfold daysInYear at this; split at this <;> omega
  unfold renderEpoch at h
  rw [pyLt_padDig_append 4 t2.y t1.y _ _ (by norm_num; omega) (by norm_num; omega)] at h
  rcases Nat.lt_trichotomy t1.y t2.y with hy | hy | hy
  · exact Or.inr (Or.inl hy)
  · rw [if_neg (by omega), if_neg (by omega), pyLt_cons_same] at h
    rw [pyLt_padDig_append 3 t2.j t1.j _ _ hj2b hj1b] at h
    rcases Nat.lt_trichotomy t1.j t2.j with hj | hj | hj
    · exact Or.inr (Or.inr ⟨hy, Or.inl hj⟩)
    · rw [if_neg (by omega), if_neg (by omega), pyLt_cons_same] at h
      rw [pyLt_padDig_append 2 t2.h t1.h _ _ (by norm_num; omega) (by norm_num; omega)] at h
      rcases Nat.lt_trichotomy t1.h t2.h with hh | hh | hh
      · exact Or.inr (Or.inr ⟨hy, Or.inr ⟨hj, Or.inl hh⟩⟩)
      · rw [if_neg (by omega), if_neg (by omega), pyLt_cons_same] at h
        rw [pyLt_padDig_append 2 t2.mi t1.mi _ _ (by norm_num; omega) (by norm_num; omega)] at h
        rcases Nat.lt_trichotomy t1.mi t2.mi with hm | hm | hm
        · exact Or.inr (Or.inr ⟨hy, Or.inr ⟨hj, Or.inr ⟨hh, Or.inl hm⟩⟩⟩)
        · rw [if_neg (by omega), if_neg (by omega), pyLt_cons_same] at h
          rw [pyLt_padDig_append 2 t2.s t1.s _ _ (by norm_num; omega) (by norm_num; omega)] at h
          rcases Nat.lt_trichotomy t1.s t2.s with hs | hs | hs
          · exact Or.inr (Or.inr ⟨hy, Or.inr ⟨hj, Or.inr ⟨hh, Or.inr ⟨hm, Or.inl hs⟩⟩⟩⟩)
          · rw [if_neg (by omega), if_neg (by omega), pyLt_cons_same] at h
            rw [pyLt_padDig_append w t2.f t1.f _ _ hf2 hf1] at h
            rcases Nat.lt_trichotomy t1.f t2.f with hf | hf | hf
            · exact Or.inr (Or.inr ⟨hy, Or.inr ⟨hj, Or.inr ⟨hh, Or.inr ⟨hm, Or.inr ⟨hs, hf⟩⟩⟩⟩⟩)
            · left
              cases t1; cases t2
              simp only at hy hj hh hm hs hf
              simp [hy, hj, hh, hm, hs, hf]
            · rw [if_pos hf] at h
              exact absurd h (by simp)
          · rw [if_pos hs] at h
            exact absurd h (by simp)
        · rw [if_pos hm] at h
          exact absurd h (by simp)
      · rw [if_pos hh] at h
        exact absurd h (by simp)
    · rw [if_pos hj] at h
      exact absurd h (by simp)
  · rw [if_pos hy] at h
    exact absurd h (by simp)

/-- The bridge: lexicographic string order on equal-width canonical epoch
strings implies chronological order of the denoted instants. -/
theorem strLe_canon_micros (w : Nat) (t1 t2 : EpochTuple)
    (h1 : CanonTuple w t1) (h2 : CanonTuple w t2)
    (hle : pyLe (renderEpoch w t1) (renderEpoch w t2) = true) :
    microsOfTuple w t1 ≤ microsOfTuple w t2 := by
  have hfalse : pyLt (renderEpoch w t2) (renderEpoch w t1) = false := by
    unfold pyLe at hle
    rcases hh : pyLt (renderEpoch w t2) (renderEpoch w t1) with _ | _
    · rfl
    · rw [hh] at hle; exact absurd hle (by simp)
  rcases pyLt_render_false w t1 t2 h1 h2 hfalse with heq | hlex
  · rw [heq]
  · exact le_of_lt (microsOfTuple_lt w t1 t2 h1 h2 hlex)

/-! ### Characterization of `parse_iss_data` -/

/-- On a document whose complete entries all parse numerically,
`parse_iss_data` returns exactly the records of the complete entries (in
document order) and counts the incomplete entries as rejections. -/
theorem parse_iss_data_clean : ∀ (doc : List SVEntry),
    (∀ e ∈ doc, entryComplete e = true → (recOf e).isSome) →
    parse_iss_data doc
      = .ok (doc.filterMap recOf, (doc.filter (fun e => !entryComplete e)).length) := by
  intro doc
  induction doc with
  | nil => intro _; rfl
  | cons e rest ih =>
    intro h
    have he := h e (List.mem_cons_self _ _)
    have ihr := ih (fun e' he' => h e' (List.mem_cons_of_mem _ he'))
    rcases e with ⟨ep, x, y, z, xd, yd, zd⟩
    rcases ep with _ | ep
    · simp [parse_iss_data, recOf, entryComplete, ihr, List.filter_cons, Except.map]
    rcases x with _ | x
    · simp [parse_iss_data, recOf, entryComplete, ihr, List.filter_cons, Except.map]
    rcases y with _ | y
    · simp [parse_iss_data, recOf, entryComplete, ihr, List.filter_cons, Except.map]
    rcases z with _ | z
    · simp [parse_iss_data, recOf, entryComplete, ihr, List.filter_cons, Except.map]
    rcases xd with _ | xd
    · simp [parse_iss_data, recOf, entryComplete, ihr, List.filter_cons, Except.map]
    rcases yd with _ | yd
    · simp [parse_iss_data, recOf, entryComplete, ihr, List.filter_cons, Except.map]
    rcases zd with _ | zd
    · simp [parse_iss_data, recOf, entryComplete, ihr, List.filter_cons, Except.map]
    have hc : entryComplete ⟨some ep, some x, some y, some z, some xd, some yd, some zd⟩ = true := by
      simp [entryComplete]
    have hsome := he hc
    rcases hfx : pythonFloat x with _ | xv
    · exfalso; simp [recOf, hfx] at hsome
    rcases hfy : pythonFloat y with _ | yv
    · exfalso; simp [recOf, hfx, hfy] at hsome
    rcases hfz : pythonFloat z with _ | zv
    · exfalso; simp [recOf, hfx, hfy, hfz] at hsome
    rcases hfxd : pythonFloat xd with _ | xdv
    · exfalso; simp [recOf, hfx, hfy, hfz, hfxd] at hsome
    rcases hfyd : pythonFloat yd with _ | ydv
    · exfalso; simp [recOf, hfx, hfy, hfz, hfxd, hfyd] at hsome
    rcases hfzd : pythonFloat zd with _ | zdv
    · exfalso; simp [recOf, hfx, hfy, hfz, hfxd, hfyd, hfzd] at hsome
    simp [parse_iss_data, recOf, entryComplete, ihr, List.filter_cons, Except.map,
      hfx, hfy, hfz, hfxd, hfyd, hfzd]

/-- An entry whose seven elements are all present but whose numeric text
fails `float(...)` makes the whole parse raise, losing every record —
including well-formed entries elsewhere in the same document. -/
theorem parse_iss_data_abort : ∀ (pre : List SVEntry) (bad : SVEntry) (rest : List SVEntry),
    (∀ e ∈ pre, entryComplete e = true → (recOf e).isSome) →
    entryComplete bad = true → recOf bad = none →
    parse_iss_data (pre ++ bad :: rest) = .error () := by
  intro pre
  induction pre with
  | nil =>
    intro bad rest _ hc hr
    rcases bad with ⟨ep, x, y, z, xd, yd, zd⟩
    rcases ep with _ | ep
    · simp [entryComplete] at hc
    rcases x with _ | x
    · simp [entryComplete] at hc
    rcases y with _ | y
    · simp [entryComplete] at hc
    rcases z with _ | z
    · simp [entryComplete] at hc
    rcases xd with _ | xd
    · simp [entryComplete] at hc
    rcases yd with _ | yd
    · simp [entryComplete] at hc
    rcases zd with _ | zd
    · simp [entryComplete] at hc
    rcases hfx : pythonFloat x with _ | xv
    · simp [parse_iss_data, hfx]
    rcases hfy : pythonFloat y with _ | yv
    · simp [parse_iss_data, hfx, hfy]
    rcases hfz : pythonFloat z with _ | zv
    · simp [parse_iss_data, hfx, hfy, hfz]
    rcases hfxd : pythonFloat xd with _ | xdv
    · simp [parse_iss_data, hfx, hfy, hfz, hfxd]
    rcases hfyd : pythonFloat yd with _ | ydv
    · simp [parse_iss_data, hfx, hfy, hfz, hfxd, hfyd]
    rcases hfzd : pythonFloat zd with _ | zdv
    · simp [parse_iss_data, hfx, hfy, hfz, hfxd, hfyd, hfzd]
    · exfalso
      simp [recOf, hfx, hfy, hfz, hfxd, hfyd, hfzd] at hr
  | cons e pre' ih =>
    intro bad rest h hc hr
    have he := h e (List.mem_cons_self _ _)
    have ihr := ih bad rest (fun e' he' => h e' (List.mem_cons_of_mem _ he')) hc hr
    rcases e with ⟨ep, x, y, z, xd, yd, zd⟩
    rcases ep with _ | ep
    · simpa [parse_iss_data, Except.map] using congrArg (Except.map (fun r => (r.1, r.2 + 1))) ihr
    rcases x with _ | x
    · simpa [parse_iss_data, Except.map] using congrArg (Except.map (fun r => (r.1, r.2 + 1))) ihr
    rcases y with _ | y
    · simpa [parse_iss_data, Except.map] using congrArg (Except.map (fun r => (r.1, r.2 + 1))) ihr
    rcases z with _ | z
    · simpa [parse_iss_data, Except.map] using congrArg (Except.map (fun r => (r.1, r.2 + 1))) ihr
    rcases xd with _ | xd
    · simpa [parse_iss_data, Except.map] using congrArg (Except.map (fun r => (r.1, r.2 + 1))) ihr
    rcases yd with _ | yd
    · simpa [parse_iss_data, Except.map] using congrArg (Except.map (fun r => (r.1, r.2 + 1))) ihr
    rcases zd with _ | zd
    · simpa [parse_iss_data, Except.map] using congrArg (Except.map (fun r => (r.1, r.2 + 1))) ihr
    have hcomp : entryComplete ⟨some ep, some x, some y, some z, some xd, some yd, some zd⟩ = true := by
      simp [entryComplete]
    have hsome := he hcomp
    rcases hfx : pythonFloat x with _ | xv
    · exfalso; simp [recOf, hfx] at hsome
    rcases hfy : pythonFloat y with _ | yv
    · exfalso; simp [recOf, hfx, hfy] at hsome
    rcases hfz : pythonFloat z with _ | zv
    · exfalso; simp [recOf, hfx, hfy, hfz] at hsome
    rcases hfxd : pythonFloat xd with _ | xdv
    · exfalso; simp [recOf, hfx, hfy, hfz, hfxd] at hsome
    rcases hfyd : pythonFloat yd with _ | ydv
    · exfalso; simp [recOf, hfx, hfy, hfz, hfxd, hfyd] at hsome
    rcases hfzd : pythonFloat zd with _ | zdv
    · exfalso; simp [recOf, hfx, hfy, hfz, hfxd, hfyd, hfzd] at hsome
    simp [parse_iss_data, hfx, hfy, hfz, hfxd, hfyd, hfzd, ihr, Except.map]

/-! ### Remaining support lemmas -/

theorem mem_padDig_digit (w : Nat) : ∀ n, ∀ c ∈ padDig w n, 48 ≤ c.toNat ∧ c.toNat ≤ 57 := by
  induction w with
  | zero => intro n c hc; simp [padDig] at hc
  | succ w ih =>
    intro n c hc
    rw [padDig] at hc
    rcases List.mem_cons.mp hc with rfl | hc'
    · have hlt : n / 10 ^ w % 10 < 10 := Nat.mod_lt _ (by norm_num)
      have := dChar_toNat _ hlt
      omega
    · exact ih _ c hc'

theorem mem_render_ne_e (w : Nat) (t : EpochTuple) : ∀ c ∈ renderEpoch w t, c ≠ 'e' := by
  intro c hc
  have hdigit : ∀ {ww nn : Nat}, c ∈ padDig ww nn → c ≠ 'e' := by
    intro ww nn hm he
    have h := mem_padDig_digit ww nn c hm
    have he' : c.toNat = 101 := by rw [he]; decide
    omega
  unfold renderEpoch at hc
  simp only [List.mem_append, List.mem_cons, List.mem_singleton] at hc
  rcases hc with h | h | h | h | h | h | h | h | h | h | h | h | h
  · exact hdigit h
  · rw [h]; decide
  · exact hdigit h
  · rw [h]; decide
  · exact hdigit h
  · rw [h]; decide
  · exact hdigit h
  · rw [h]; decide
  · exact hdigit h
  · rw [h]; decide
  · exact hdigit h
  · rw [h]; decide
  · simp at h

/-- Stripping the `epoch:` prefix from a prefixed canonical epoch recovers
the epoch: canonical epochs contain only digits and `-T:.Z`, so no later
occurrence of the pattern exists. -/
theorem canonStrip (w : Nat) (e : String) (h : CanonEpoch w e) :
    pyReplace ("epoch:" ++ e) "epoch:" "" = e := by
  obtain ⟨t, hct, hdata⟩ := h
  have hne : ∀ c ∈ e.data, c ≠ 'e' := by
    rw [hdata]; exact fun c hc => mem_render_ne_e w t c hc
  have hpd : "epoch:".data = 'e' :: ['p', 'o', 'c', 'h', ':'] := rfl
  have hsd : ("epoch:" ++ e).data = ('e' :: ['p', 'o', 'c', 'h', ':']) ++ e.data := by
    rw [String.data_append, hpd]
  show (⟨replChars "epoch:".data "".data ("epoch:" ++ e).data⟩ : String) = e
  rw [hpd, hsd]
  show (⟨replChars ('e' :: ['p', 'o', 'c', 'h', ':']) []
    (('e' :: ['p', 'o', 'c', 'h', ':']) ++ e.data)⟩ : String) = e
  rw [replChars_strip 'e' ['p', 'o', 'c', 'h', ':'] [] e.data hne]
  rfl

theorem lookupStore_isSome_mem : ∀ (st : Store) (k : String),
    (lookupStore st k).isSome = true → ∃ kv ∈ st, kv.1 = k := by
  intro st k
  induction st with
  | nil => intro h; simp [lookupStore] at h
  | cons kv rest ih =>
    intro h
    unfold lookupStore at h
    split at h
    · next he => exact ⟨kv, List.mem_cons_self _ _, he⟩
    · rcases ih h with ⟨kv', hm, he⟩
      exact ⟨kv', List.mem_cons_of_mem _ hm, he⟩

/-- A `bytes` key never hits the `str`-keyed hash dict. -/
theorem pyDictGet_bytes (d : RecordData) (k : String) :
    pyDictGet (hgetallPairs d) (.pybytes k) = none := by
  simp [hgetallPairs, pyDictGet]

theorem pairwise_of_pairwise_mem {α : Type} {R S : α → α → Prop} :
    ∀ (l : List α), (∀ a ∈ l, ∀ b ∈ l, R a b → S a b) → l.Pairwise R → l.Pairwise S := by
  intro l
  induction l with
  | nil => intro _ _; exact List.Pairwise.nil
  | cons x xs ih =>
    intro h hp
    rcases List.pairwise_cons.mp hp with ⟨hx, hxs⟩
    refine List.pairwise_cons.mpr ⟨?_, ih ?_ hxs⟩
    · intro b hb
      exact h x (List.mem_cons_self _ _) b (List.mem_cons_of_mem _ hb) (hx b hb)
    · intro a ha b hb hr
      exact h a (List.mem_cons_of_mem _ ha) b (List.mem_cons_of_mem _ hb) hr

/-! ### Concrete fixtures -/

def dA : RecordData := ⟨⟨10, 1⟩, ⟨20, 1⟩, ⟨30, 1⟩, ⟨40, 1⟩, ⟨50, 1⟩, ⟨60, 1⟩⟩

def entryA : SVEntry :=
  ⟨some "2025-055T12:00:00.000000Z", some "1.0", some "2.0", some "3.0",
   some "4.0", some "5.0", some "6.0"⟩

def pA : PState := ⟨"2025-055T12:00:00.000000Z", ⟨10, 1⟩, ⟨20, 1⟩, ⟨30, 1⟩, ⟨40, 1⟩, ⟨50, 1⟩, ⟨60, 1⟩⟩

def entryB : SVEntry :=
  ⟨some "2025-056T14:30:00.000000Z", some "1.0", some "2.0", some "3.0",
   some "4.0", some "5.0", some "6.0"⟩

def pB : PState := ⟨"2025-056T14:30:00.000000Z", ⟨10, 1⟩, ⟨20, 1⟩, ⟨30, 1⟩, ⟨40, 1⟩, ⟨50, 1⟩, ⟨60, 1⟩⟩

/-- An entry whose `X` element is absent. -/
def entryMissing : SVEntry :=
  ⟨some "2025-057T00:00:00.000000Z", none, some "2.0", some "3.0",
   some "4.0", some "5.0", some "6.0"⟩

/-- An entry whose elements are all present but whose `X` text is not a
number. -/
def entryBadNum : SVEntry :=
  ⟨some "2025-057T00:00:00.000000Z", some "abc", some "2.0", some "3.0",
   some "4.0", some "5.0", some "6.0"⟩

/-- A store already holding one complete record. -/
def store0 : Store := [("epoch:2025-055T12:00:00.000000Z", dA)]

/-- 2025-055T12:00:00 UTC in microseconds — a possible wall-clock instant. -/
def t0 : Int := (epochMicros ⟨2025, 55, 12, 0, 0, 0⟩ : Nat)

/-! ### Claim C1 -/

/-- C1 counterexample: with the store already holding a non-empty, complete
record set (one record), a `load_data_to_redis` call whose feed parses to a
record with a fresh epoch leaves the store with two records — the stored
record count changes, so the call is not a no-op (and it returns no
loaded/rejected counts at all). -/
theorem load_not_noop_cex :
    store0.length = 1 ∧
    (load_data_to_redis (some [entryB]) store0).map List.length = .ok 2 := by decide

/-- C1 (amended): `load_data_to_redis` has no already-loaded guard: on every
call with a fetched feed that parses to a non-empty record list it writes
all parsed records under their `epoch:`-prefixed keys — every parsed record
is present afterwards, keys not written are untouched (so same-epoch entries
are overwritten and new epochs are added), and no store contents ever make
the call skip the fetch/write.  The function returns `None`, reporting no
loaded/rejected counts; only a failed fetch or an empty/aborted parse
leaves the store unchanged. -/
theorem load_data_always_writes (st : Store) (doc : List SVEntry)
    (svs : List PState) (rej : Nat)
    (hp : parse_iss_data doc = .ok (svs, rej)) (hne : svs ≠ []) :
    load_data_to_redis (some doc) st = .ok (writeAll svs st) ∧
    (∀ p ∈ svs, (lookupStore (writeAll svs st) ("epoch:" ++ p.EPOCH)).isSome = true) ∧
    (∀ k, (∀ p ∈ svs, "epoch:" ++ p.EPOCH ≠ k) →
      lookupStore (writeAll svs st) k = lookupStore st k) := by
  have hie : svs.isEmpty = false := by
    cases svs with
    | nil => exact absurd rfl hne
    | cons a l => rfl
  refine ⟨?_, fun p hp' => lookupStore_writeAll_mem svs st p hp',
    fun k hk => lookupStore_writeAll_untouched svs st k hk⟩
  simp [load_data_to_redis, hp, hie]

/-- C1 witness: the amended statement evaluated on a concrete store and
feed. -/
theorem load_data_always_writes_witness :
    parse_iss_data [entryB] = .ok ([pB], 0) ∧
    (load_data_to_redis (some [entryB]) store0 = .ok (writeAll [pB] store0) ∧
     (∀ p ∈ [pB], (lookupStore (writeAll [pB] store0) ("epoch:" ++ p.EPOCH)).isSome = true) ∧
     (∀ k, (∀ p ∈ [pB], "epoch:" ++ p.EPOCH ≠ k) →
       lookupStore (writeAll [pB] store0) k = lookupStore store0 k)) :=
  ⟨by decide, load_data_always_writes store0 [entryB] [pB] 0 (by decide) (by decide)⟩

/-! ### Claim C3 -/

/-- C3: `find_closest_epoch` on an empty record sequence fails with the
explicit empty-input error (Python's `ValueError` raised by `min()` on an
empty sequence, the behaviour the repository's own test expects) — it
neither crashes the embedding nor returns a default record. -/
theorem find_closest_epoch_empty (now : Int) :
    find_closest_epoch now [] = .error .emptyInput := rfl

/-! ### Claim C4 -/

/-- C4 counterexample: a document holding an entry with all seven elements
present but a non-numeric `X` text, followed by a well-formed entry, makes
`parse_iss_data` raise (`float("abc")` → `ValueError`), so the remaining
well-formed entry of the same document is not returned — contradicting the
claim that such an entry is skipped and parsing continues. -/
theorem parse_abort_cex :
    entryComplete entryBadNum = true ∧ recOf entryBadNum = none ∧
    (recOf entryA).isSome = true ∧
    parse_iss_data [entryBadNum, entryA] = .error () := by decide

/-- C4 (amended): an entry with an absent element is skipped, the rejection
is logged/counted, and parsing continues — every remaining well-formed
entry is returned; but an entry whose elements are all present with text
failing numeric parsing raises an uncaught `ValueError` that aborts the
whole parse, returning no records at all. -/
theorem parse_skip_vs_abort :
    (∀ doc : List SVEntry, (∀ e ∈ doc, entryComplete e = true → (recOf e).isSome = true) →
      parse_iss_data doc
        = .ok (doc.filterMap recOf, (doc.filter (fun e => !entryComplete e)).length)) ∧
    (∀ (pre : List SVEntry) (bad : SVEntry) (rest : List SVEntry),
      (∀ e ∈ pre, entryComplete e = true → (recOf e).isSome = true) →
      entryComplete bad = true → recOf bad = none →
      parse_iss_data (pre ++ bad :: rest) = .error ()) :=
  ⟨parse_iss_data_clean, parse_iss_data_abort⟩

/-- C4 witness: a document with one incomplete and one well-formed entry
parses to the single well-formed record with one counted rejection. -/
theorem parse_skip_vs_abort_witness :
    (∀ e ∈ [entryMissing, entryA], entryComplete e = true → (recOf e).isSome = true) ∧
    parse_iss_data [entryMissing, entryA]
      = .ok ([entryMissing, entryA].filterMap recOf,
          ([entryMissing, entryA].filter (fun e => !entryComplete e)).length) :=
  ⟨by decide, parse_skip_vs_abort.1 [entryMissing, entryA] (by decide)⟩

/-! ### Claim C5 -/

/-- Modelled from the spec's words (claim C5): the claimed epoch shape
`YYYY-DDDThh:mm:ss.ffffffZ` — exactly four year digits, exactly three
day-of-year digits, two digits each for hour, minute and second, and
exactly six fraction digits. -/
def specEpochShape (s : String) : Bool :=
  match s.data with
  | [y1, y2, y3, y4, '-', d1, d2, d3, 'T', h1, h2, ':', m1, m2, ':',
     s1, s2, '.', f1, f2, f3, f4, f5, f6, 'Z'] =>
    [y1, y2, y3, y4, d1, d2, d3, h1, h2, m1, m2, s1, s2,
     f1, f2, f3, f4, f5, f6].all isDigitCh
  | _ => false

/-- C5 counterexample: `"2025-055T12:00:00.000Z"` (three fraction digits,
the shape the feed and the repository's own tests actually use) is not of
the claimed `YYYY-DDDThh:mm:ss.ffffffZ` shape, yet the `strptime` call of
`convert_epoch_to_datetime` parses it successfully — so parsing does not
fail on every string of another shape. -/
theorem strptime_shape_cex :
    specEpochShape "2025-055T12:00:00.000Z" = false ∧
    (pyStrptimeEpoch "2025-055T12:00:00.000Z").isSome = true := by decide

/-- C5 (amended): epoch parsing accepts exactly the lenient
`strptime("%Y-%jT%H:%M:%S.%fZ")` pattern — four year digits, one to three
day-of-year digits (1..366), one or two digits for hour/minute/second, one
to six fraction digits — not only the six-fraction-digit canonical shape;
`"2025-055T12:00:00.000000Z"` maps to the UTC instant 2025-02-24 12:00:00
(day-of-year 55), and a string not matching the pattern fails with the
`ValueError` the spec calls `InvalidEpochFormat`. -/
theorem strptime_lenient :
    (pyStrptimeEpoch "2025-055T12:00:00.000000Z").map epochMicros
      = some (civilMicros 2025 2 24 12 0 0 0) ∧
    (pyStrptimeEpoch "2025-055T12:00:00.000Z").isSome = true ∧
    (pyStrptimeEpoch "2025-55T12:0:0.5Z").isSome = true ∧
    pyStrptimeEpoch "Invalid-Epoch-Format" = none ∧
    pyStrptimeEpoch "2025-055 12:00:00.000000Z" = none ∧
    pyStrptimeEpoch "2025-000T12:00:00.000000Z" = none ∧
    pyStrptimeEpoch "2025-055T12:00:00.0000000Z" = none := by decide

/-! ### Claim C7 -/

/-- C7 counterexample: `convert_cartesian_to_geo` at the origin performs no
degeneracy check — `math.atan2(0, 0)` returns `0.0` — and the result
carries latitude/longitude values instead of any reported
degenerate-coordinate condition. -/
theorem convert_geo_origin_cex :
    ((convert_cartesian_to_geo .okNone 0 0 0).latitude).isSome = true ∧
    ((convert_cartesian_to_geo .okNone 0 0 0).longitude).isSome = true := by
  have hzero : ((0 : ℝ) ^ 2 + 0 ^ 2) = 0 := by norm_num
  have ha : atan2 (0 : ℝ) 0 = 0 := by
    unfold atan2
    have h0 : (⟨(0 : ℝ), (0 : ℝ)⟩ : ℂ) = 0 := Complex.ext rfl rfl
    rw [h0, Complex.arg_zero]
  constructor <;>
    simp [convert_cartesian_to_geo, math_degrees, hzero, Real.sqrt_zero, ha]

/-- C7 (amended): the code has no `DegenerateCoordinate` condition: at the
origin it returns latitude 0, longitude 0 and altitude −6371 (with the
geoposition given by the geocoder outcome); only a geocoder exception
replaces the numbers — by `None`, not by a degeneracy report. -/
theorem convert_geo_origin (g : GeoOutcome) :
    convert_cartesian_to_geo g 0 0 0
      = match g with
        | .ok addr => ⟨some 0, some 0, some (-6371), addr⟩
        | .okNone => ⟨some 0, some 0, some (-6371), "Unknown Location"⟩
        | .raise => ⟨none, none, none, "Error retrieving location"⟩ := by
  have hzero : ((0 : ℝ) ^ 2 + 0 ^ 2) = 0 := by norm_num
  have hzero3 : ((0 : ℝ) ^ 2 + 0 ^ 2 + 0 ^ 2) = 0 := by norm_num
  have ha : atan2 (0 : ℝ) 0 = 0 := by
    unfold atan2
    have h0 : (⟨(0 : ℝ), (0 : ℝ)⟩ : ℂ) = 0 := Complex.ext rfl rfl
    rw [h0, Complex.arg_zero]
  cases g <;>
    simp [convert_cartesian_to_geo, math_degrees, hzero, hzero3, Real.sqrt_zero, ha]

/-! ### Claim C2 -/

def svEarly : StateVec :=
  ⟨"2025-055T11:00:00.000000Z", (⟨10, 1⟩, ⟨20, 1⟩, ⟨30, 1⟩), (⟨40, 1⟩, ⟨50, 1⟩, ⟨60, 1⟩)⟩

def svLate : StateVec :=
  ⟨"2025-055T13:00:00.000000Z", (⟨10, 1⟩, ⟨20, 1⟩, ⟨30, 1⟩), (⟨40, 1⟩, ⟨50, 1⟩, ⟨60, 1⟩)⟩

/-- C2 counterexample: at a reference time exactly between two records the
epoch distances tie; with the later-epoch record first in the given
sequence (redis key enumeration order is arbitrary), `min` keeps the
first-encountered record — the *later* epoch — not the record with the
earliest epoch that the claim requires. -/
theorem find_closest_tiebreak_cex :
    find_closest_epoch t0 [svLate, svEarly] = .ok svLate ∧
    epochKey t0 svLate = epochKey t0 svEarly ∧
    (∃ a b : Int, parse_epoch_micros svEarly.epoch = some a ∧
      parse_epoch_micros svLate.epoch = some b ∧ a < b) :=
  ⟨by decide, by decide,
    ⟨63875991600000000, 63875998800000000, by decide, by decide, by decide⟩⟩

/-- C2 (amended): on success `find_closest_epoch` returns a record whose
`|epoch − referenceTime|` is ≤ that of every other record, every epoch in
the sequence having parsed; ties are broken by the *first minimal element
in the order the records are given* (for `/now`, redis key-listing order) —
not by earliest epoch. -/
theorem find_closest_min_first (now : Int) (svs : List StateVec) (c : StateVec)
    (h : find_closest_epoch now svs = .ok c) :
    (∀ s ∈ svs, ∃ k, epochKey now s = some k) ∧
    ∃ kc pre post, epochKey now c = some kc ∧ svs = pre ++ c :: post ∧
      (∀ s ∈ pre, ∀ k, epochKey now s = some k → kc < k) ∧
      (∀ s ∈ svs, ∀ k, epochKey now s = some k → kc ≤ k) :=
  find_closest_epoch_spec now svs c h

/-- C2 witness: the amended statement evaluated on a concrete two-record
sequence. -/
theorem find_closest_min_first_witness :
    find_closest_epoch t0 [svLate, svEarly] = .ok svLate ∧
    ((∀ s ∈ [svLate, svEarly], ∃ k, epochKey t0 s = some k) ∧
     ∃ kc pre post, epochKey t0 svLate = some kc
       ∧ [svLate, svEarly] = pre ++ svLate :: post ∧
       (∀ s ∈ pre, ∀ k, epochKey t0 s = some k → kc < k) ∧
       (∀ s ∈ [svLate, svEarly], ∀ k, epochKey t0 s = some k → kc ≤ k)) :=
  ⟨by decide, find_closest_min_first t0 [svLate, svEarly] svLate (by decide)⟩

/-! ### Claim C8 -/

def st8 : Store := [("epoch:2025-055T12:00:00.000000Z", dA)]

def sv8 : StateVec :=
  ⟨"2025-055T12:00:00.000000Z", (⟨10, 1⟩, ⟨20, 1⟩, ⟨30, 1⟩), (⟨40, 1⟩, ⟨50, 1⟩, ⟨60, 1⟩)⟩

/-- C8 counterexample: with a record found and the geocoder raising, the
`/now` query still answers (no failure), but its latitude field is `None`
and the place field is the except-branch sentinel — the computed numeric
part is *not* returned, contradicting the claim that only the place field
degrades. -/
theorem now_geocoder_failure_cex :
    nowLatitude (get_now_location t0 .raise st8) = some none ∧
    nowGeoposition (get_now_location t0 .raise st8) = some "Error retrieving location" := by
  have hsv : nowStateVectors st8 = [sv8] := by decide
  have hfc : find_closest_epoch t0 [sv8] = .ok sv8 := by decide
  constructor <;>
    simp [get_now_location, hsv, hfc, convert_cartesian_to_geo,
      nowLatitude, nowGeoposition]

/-- C8 (amended): a geocoder failure never fails the `/now` query — it
still returns a result with the found epoch and the computed speed — but
the except branch of `convert_cartesian_to_geo` replaces latitude,
longitude *and* altitude by `None` and the place by the
`"Error retrieving location"` sentinel, so the numeric part of the geo
result is degraded along with the place.  (The `/epochs/<epoch>/location`
route's own geocoder fallback would keep the numbers, but that route never
reaches a successful response at all.) -/
theorem now_geocoder_failure (now : Int) (st : Store) (c : StateVec)
    (h : find_closest_epoch now (nowStateVectors st) = .ok c) :
    get_now_location now .raise st
      = .ok c.epoch none none none "Error retrieving location"
          (calculate_speed (c.velocity.1.toReal, c.velocity.2.1.toReal,
            c.velocity.2.2.toReal)) := by
  have hne : (nowStateVectors st).isEmpty = false := by
    rcases hsv : nowStateVectors st with _ | ⟨a, l⟩
    · rw [hsv] at h; exact absurd h (by simp [find_closest_epoch])
    · rfl
  simp [get_now_location, hne, h, convert_cartesian_to_geo]

/-- C8 witness: the amended statement evaluated on a concrete one-record
store. -/
theorem now_geocoder_failure_witness :
    find_closest_epoch t0 (nowStateVectors st8) = .ok sv8 ∧
    get_now_location t0 .raise st8
      = .ok sv8.epoch none none none "Error retrieving location"
          (calculate_speed (sv8.velocity.1.toReal, sv8.velocity.2.1.toReal,
            sv8.velocity.2.2.toReal)) :=
  ⟨by decide, now_geocoder_failure t0 st8 sv8 (by decide)⟩

/-! ### Claim C9 -/

/-- A store state with a record under a *bare* (unprefixed) epoch key —
not producible by `load_data_to_redis`, but postulated by the claim's
second scenario. -/
def bareStore : Store := [("2025-055T12:00:00.000000Z", dA)]

/-- A store produced by one `load_data_to_redis` run on the empty store. -/
def storeL : Store := [("epoch:2025-056T14:30:00.000000Z", dataOf pB)]

theorem storeL_reachable : ReachableStore storeL :=
  ReachableStore.load [] storeL (some [entryB]) ReachableStore.empty (by decide)

/-- C9: the `/epochs/<epoch>/location` route never returns a success
response.  For every store and epoch string the handler either reports
not-found or falls into its internal-error branch (`data[b'x']` looks up a
`bytes` key in the `str`-keyed dict and raises `KeyError`; were it ever
reached, the three-variable unpacking of the four-key dict returned by
`convert_cartesian_to_geo` would raise as well).  For stores produced only
by `load_data_to_redis` — whose keys all carry the `epoch:` prefix — every
lookup whose decoded epoch lacks that prefix reports not-found; and even
with a record stored under the bare key the handler answers with the
internal error. -/
theorem location_route_never_succeeds :
    (∀ (st : Store) (epoch : String), get_epoch_location st epoch ≠ .success) ∧
    (∀ (st : Store) (epoch : String), ReachableStore st →
      strHasPfx "epoch:" (pyReplace epoch "%20" " ") = false →
      get_epoch_location st epoch = .notFound (pyReplace epoch "%20" " ")) ∧
    get_epoch_location bareStore "2025-055T12:00:00.000000Z" = .internalError := by
  refine ⟨?_, ?_, by decide⟩
  · intro st epoch
    rcases hl : lookupStore st (pyReplace epoch "%20" " ") with _ | d
    · simp [get_epoch_location, hl]
    · simp [get_epoch_location, hl, pyDictGet_bytes]
  · intro st epoch hreach hnp
    have hnone : lookupStore st (pyReplace epoch "%20" " ") = none := by
      rcases hl : lookupStore st (pyReplace epoch "%20" " ") with _ | d
      · rfl
      · exfalso
        have hs : (lookupStore st (pyReplace epoch "%20" " ")).isSome = true := by
          rw [hl]; rfl
        rcases lookupStore_isSome_mem st _ hs with ⟨kv, hm, hk⟩
        have hpfx := reachable_keys_pfx st hreach kv hm
        rw [hk] at hpfx
        rw [hpfx] at hnp
        exact absurd hnp (by simp)
    simp [get_epoch_location, hnone]

/-- C9 witness: a reachable one-record store and an unprefixed epoch
string, evaluated through the claim's statement. -/
theorem location_route_never_succeeds_witness :
    get_epoch_location storeL "2025-056T14:30:00.000000Z"
      = .notFound (pyReplace "2025-056T14:30:00.000000Z" "%20" " ") :=
  location_route_never_succeeds.2.1 storeL "2025-056T14:30:00.000000Z"
    storeL_reachable (by decide)

/-! ### Claim C6 -/

/-- C6: with every stored key an `epoch:`-prefixed canonical fixed-width
epoch (all sharing the fraction width `w`, as the feed's timestamps do),
the `/epochs` listing with both parameters absent (offset defaulting to 0,
no limit) returns all `N` stored epochs in ascending chronological order —
its lexicographic `sort()` coincides with order of the denoted instants —
and any offset at or past the end of the epoch list yields an empty
sequence, not an error, for every limit. -/
theorem get_epochs_ordered (st : Store) (w : Nat)
    (hcanon : ∀ kv ∈ st, ∃ e, kv.1 = "epoch:" ++ e ∧ CanonEpoch w e) :
    (get_epochs st none none).Pairwise (chronLE w) ∧
    (get_epochs st none none).Perm (st.map (fun kv => pyReplace kv.1 "epoch:" "")) ∧
    (get_epochs st none none).length = st.length ∧
    (∀ off lim, (st.length : Int) ≤ off → get_epochs st (some off) lim = []) := by
  have hdefault : get_epochs st none none = epochListing st := by
    show pySliceFrom (epochListing st) ((none : Option Int).getD 0) = epochListing st
    exact pySliceFrom_zero _
  have hfilter : ((st.map Prod.fst).filter (fun k => strHasPfx "epoch:" k)) = st.map Prod.fst := by
    rw [List.filter_eq_self]
    intro k hk
    rcases List.mem_map.mp hk with ⟨kv, hkv, rfl⟩
    rcases hcanon kv hkv with ⟨e, hke, _⟩
    rw [hke]
    exact strHasPfx_append _ _
  have hlist : epochListing st
      = pySort (st.map (fun kv => pyReplace kv.1 "epoch:" "")) := by
    unfold epochListing
    rw [hfilter, List.map_map]
    rfl
  have hperm : (epochListing st).Perm (st.map (fun kv => pyReplace kv.1 "epoch:" "")) := by
    rw [hlist]; exact pySort_perm _
  have hmemcanon : ∀ a ∈ epochListing st, CanonEpoch w a := by
    intro a ha
    have ha' := hperm.mem_iff.mp ha
    rcases List.mem_map.mp ha' with ⟨kv, hkv, rfl⟩
    rcases hcanon kv hkv with ⟨e, hke, hc⟩
    rw [hke, canonStrip w e hc]
    exact hc
  have hlen : (epochListing st).length = st.length := by
    rw [hperm.length_eq, List.length_map]
  refine ⟨?_, ?_, ?_, ?_⟩
  · rw [hdefault]
    have hs : (epochListing st).Pairwise (fun a b => strLe a b = true) := by
      rw [hlist]; exact pySort_sorted _
    refine pairwise_of_pairwise_mem _ ?_ hs
    intro a ha b hb hr
    rcases hmemcanon a ha with ⟨ta, hta, hda⟩
    rcases hmemcanon b hb with ⟨tb, htb, hdb⟩
    refine ⟨ta, tb, hta, hda, htb, hdb, ?_⟩
    apply strLe_canon_micros w ta tb hta htb
    rw [← hda, ← hdb]
    exact hr
  · rw [hdefault]; exact hperm
  · rw [hdefault]; exact hlen
  · intro off lim hoff
    have hoff' : ((epochListing st).length : Int) ≤ off := by rw [hlen]; exact hoff
    rcases lim with _ | l
    · show pySliceFrom (epochListing st) off = []
      exact pySliceFrom_past_end _ off hoff'
    · show (if l = 0 then pySliceFrom (epochListing st) off
        else pySliceTake (epochListing st) off (off + l)) = []
      split
      · exact pySliceFrom_past_end _ off hoff'
      · exact pySliceTake_past_end _ off _ hoff'

/-- A two-record store with canonically formatted (three fraction digits,
as in the NASA feed) epoch keys, stored out of order. -/
def stw : Store :=
  [("epoch:2025-056T14:30:00.000Z", dA), ("epoch:2025-055T12:00:00.000Z", dA)]

theorem stw_canon : ∀ kv ∈ stw, ∃ e, kv.1 = "epoch:" ++ e ∧ CanonEpoch 3 e := by
  intro kv hkv
  rcases List.mem_cons.mp hkv with rfl | hkv
  · exact ⟨"2025-056T14:30:00.000Z", by decide,
      ⟨⟨2025, 56, 14, 30, 0, 0⟩, by unfold CanonTuple; decide, by decide⟩⟩
  rcases List.mem_cons.mp hkv with rfl | hkv
  · exact ⟨"2025-055T12:00:00.000Z", by decide,
      ⟨⟨2025, 55, 12, 0, 0, 0⟩, by unfold CanonTuple; decide, by decide⟩⟩
  · simp at hkv

/-- C6 witness: the statement evaluated on a concrete two-record store
whose keys are stored out of chronological order. -/
theorem get_epochs_ordered_witness :
    (∀ kv ∈ stw, ∃ e, kv.1 = "epoch:" ++ e ∧ CanonEpoch 3 e) ∧
    ((get_epochs stw none none).Pairwise (chronLE 3) ∧
     (get_epochs stw none none).Perm (stw.map (fun kv => pyReplace kv.1 "epoch:" "")) ∧
     (get_epochs stw none none).length = stw.length ∧
     (∀ off lim, (stw.length : Int) ≤ off → get_epochs stw (some off) lim = [])) :=
  ⟨stw_canon, get_epochs_ordered stw 3 stw_canon⟩

/-! ### Claim C10 -/

/-- C10: `limit = 0` is falsy in the handler's `if limit:`, so the route
paginates exactly as if no limit had been given — it returns every epoch
from `offset` on (`epochs[offset:]`), not an empty list. -/
theorem get_epochs_zero_limit (st : Store) (offsetParam : Option Int) :
    get_epochs st offsetParam (some 0) = get_epochs st offsetParam none ∧
    get_epochs st offsetParam (some 0)
      = pySliceFrom (epochListing st) (offsetParam.getD 0) := by
  constructor <;> rfl

end ISS
